import Mathlib

/-!
Verification of the Lottie optimizer core (`optimizeLottie`, `validateLottie`
and the rewrite passes) against its specification.  The source is a TypeScript
module operating on parsed JSON documents; we embed JSON values as the
inductive type `JVal` (numbers as exact rationals) and translate every pass
function by structural recursion.
-/

/-- A JSON-like document value: the domain of every pass in the source.
A number is modelled by the exact decimal it was written as in JSON text:
`num n e` denotes the rational `n / 10^e` (every JSON number literal has this
form).  All numeric comparisons below are comparisons of the denoted values,
so two representations of the same value are indistinguishable, exactly as in
JS. -/
inductive JVal where
  | null
  | bool (b : Bool)
  | num (n : ℤ) (e : ℕ)
  | str (s : String)
  | arr (items : List JVal)
  | obj (fields : List (String × JVal))

namespace JVal

/-- Property read `record[key]` on a JS object built from parsed JSON.
JSON.parse keeps the last occurrence of a duplicated key, hence the
last-occurrence lookup. -/
def getField : List (String × JVal) → String → Option JVal
  | [], _ => none
  | kv :: fs, key =>
    match getField fs key with
    | some v => some v
    | none => if kv.1 = key then some kv.2 else none

/-- `'k' in record` — presence of a property. -/
def hasField (fs : List (String × JVal)) (key : String) : Bool :=
  fs.any (fun kv => kv.1 == key)

/-- Assignment `record[key] = f (record[key])` for a present key: the value is
replaced in place, insertion order untouched. -/
def mapField (fs : List (String × JVal)) (key : String) (f : JVal → JVal) :
    List (String × JVal) :=
  fs.map (fun kv => if kv.1 = key then (kv.1, f kv.2) else kv)

/-- JS truthiness of a JSON value (`!x` checks in the source): `null`, `false`,
`0` and `""` are falsy, every array and object is truthy. -/
def truthy : JVal → Bool
  | .null => false
  | .bool b => b
  | .num n _ => decide (n ≠ 0)
  | .str s => decide (s ≠ "")
  | .arr _ => true
  | .obj _ => true

def isStr : JVal → Bool
  | .str _ => true
  | _ => false

def isNum : JVal → Bool
  | .num _ _ => true
  | _ => false

def isArr : JVal → Bool
  | .arr _ => true
  | _ => false

/-- Strict equality `v === c` against an integer numeric literal `c`:
`n / 10^e = c` iff `n = c * 10^e`. -/
def isNumEq (v : JVal) (c : ℤ) : Bool :=
  match v with
  | .num n e => decide (n = c * ((10 ^ e : ℕ) : ℤ))
  | _ => false

def isFalseLit : JVal → Bool
  | .bool false => true
  | _ => false

end JVal

open JVal

/-- `deepClone` from the source: `JSON.parse(JSON.stringify(obj))`, which is
the identity on JSON values (no `undefined`, functions or cycles exist in
`JVal`). -/
def deepClone (v : JVal) : JVal := v

/-- The denoted rational of an embedded number. -/
def numVal (n : ℤ) (e : ℕ) : ℚ := (n : ℚ) / ((10 ^ e : ℕ) : ℚ)

/-- `roundNumber` from the source: `Math.round(num * 10^p) / 10^p`, where JS
`Math.round x = ⌊x + 1/2⌋` (halves round toward positive infinity).  On the
decimal `n / 10^e` the rounded integer is
`⌊n/10^e * 10^p + 1/2⌋ = ⌊(2*n*10^p + 10^e) / (2*10^e)⌋`, written with
`Int.fdiv` (floor division) so it computes by kernel reduction; the result is
that integer over `10^p`.  `roundNum_spec` below proves this equals the
source formula on denotations. -/
def roundNum (n : ℤ) (e p : ℕ) : ℤ :=
  Int.fdiv (2 * n * ((10 ^ p : ℕ) : ℤ) + ((10 ^ e : ℕ) : ℤ)) (2 * ((10 ^ e : ℕ) : ℤ))

mutual
/-- `roundDecimals`: recursively round every numeric leaf. -/
def roundDecimals : JVal → Nat → JVal
  | .num n e, p => .num (roundNum n e p) p
  | .arr xs, p => .arr (roundDecimalsArr xs p)
  | .obj fs, p => .obj (roundDecimalsObj fs p)
  | v, _ => v
def roundDecimalsArr : List JVal → Nat → List JVal
  | [], _ => []
  | x :: xs, p => roundDecimals x p :: roundDecimalsArr xs p
def roundDecimalsObj : List (String × JVal) → Nat → List (String × JVal)
  | [], _ => []
  | (k, v) :: fs, p => (k, roundDecimals v p) :: roundDecimalsObj fs p
end

/-- The per-entry drop test of `removeUnnecessaryProperties`: `null` values,
the keys `mn`/`ln`/`cl`, string `nm`, numeric `ix`/`cix`, `bm === 0`,
`ddd === 0`, `ao === 0`, `sr === 1` and `hd === false`. -/
def dropDefaultEntry (k : String) (v : JVal) : Bool :=
  (match v with | .null => true | _ => false)
  || k == "mn" || k == "ln" || k == "cl"
  || (k == "nm" && v.isStr)
  || (k == "ix" && v.isNum)
  || (k == "cix" && v.isNum)
  || (k == "bm" && v.isNumEq 0)
  || (k == "ddd" && v.isNumEq 0)
  || (k == "ao" && v.isNumEq 0)
  || (k == "sr" && v.isNumEq 1)
  || (k == "hd" && v.isFalseLit)

mutual
/-- `removeUnnecessaryProperties` (the remove-default-values pass). -/
def removeUnnecessaryProperties : JVal → JVal
  | .arr xs => .arr (removeUnnecessaryPropertiesArr xs)
  | .obj fs => .obj (removeUnnecessaryPropertiesObj fs)
  | v => v
def removeUnnecessaryPropertiesArr : List JVal → List JVal
  | [] => []
  | x :: xs => removeUnnecessaryProperties x :: removeUnnecessaryPropertiesArr xs
def removeUnnecessaryPropertiesObj : List (String × JVal) → List (String × JVal)
  | [] => []
  | (k, v) :: fs =>
    if dropDefaultEntry k v then removeUnnecessaryPropertiesObj fs
    else (k, removeUnnecessaryProperties v) :: removeUnnecessaryPropertiesObj fs
end

/-- The filter inside `removeHiddenLayers`: a layer is dropped when its `hd`
property is literally `true` or its type code `ty` is `3` (null layer). -/
def layerKept (layer : JVal) : Bool :=
  match layer with
  | .obj fs =>
    !(match getField fs "hd" with | some (.bool true) => true | _ => false)
    && !(match getField fs "ty" with | some (.num n e) => decide (n = 3 * ((10 ^ e : ℕ) : ℤ)) | _ => false)
  | _ => true

/-- `filterLayers` on a `Layer[] | undefined` value (identity off the declared
array type). -/
def filterLayers : JVal → JVal
  | .arr xs => .arr (xs.filter layerKept)
  | v => v

/-- Per-asset step of `removeHiddenLayers`:
`{...asset, layers: filterLayers(asset.layers)}` when `asset.layers` is
truthy. -/
def hideAssetLayers (a : JVal) : JVal :=
  match a with
  | .obj fs =>
    match getField fs "layers" with
    | some lv => if truthy lv then .obj (mapField fs "layers" filterLayers) else a
    | none => a
  | _ => a

def mapArr (f : JVal → JVal) : JVal → JVal
  | .arr xs => .arr (xs.map f)
  | v => v

/-- `removeHiddenLayers`: filter the top-level layer list and each asset's
nested layer list. -/
def removeHiddenLayers : JVal → JVal
  | .obj fs =>
    let fs1 := mapField fs "layers" filterLayers
    match getField fs1 "assets" with
    | some av =>
      if truthy av then .obj (mapField fs1 "assets" (mapArr hideAssetLayers))
      else .obj fs1
    | none => .obj fs1
  | v => v

/-- The top-level keys deleted by `removeMetadata`. -/
def metadataKeys : List String :=
  ["meta", "markers", "fonts", "chars",
   "__typename", "created", "modified", "author", "description"]

/-- `removeMetadata`: delete `meta`, `markers`, `fonts`, `chars` and the
bookkeeping keys at the top level. -/
def removeMetadata : JVal → JVal
  | .obj fs => .obj (fs.filter (fun kv => !(metadataKeys.contains kv.1)))
  | v => v

/-- Per-asset step of `compressBase64Images`; both branches of the source
return the asset unchanged. -/
def compressAsset (a : JVal) : JVal :=
  match a with
  | .obj fs =>
    match getField fs "p" with
    | some (.str p) => if p.startsWith "data:image" then a else a
    | _ => a
  | _ => a

/-- `compressBase64Images`: maps the asset list with the (identity) per-asset
step. -/
def compressBase64Images : JVal → JVal
  | .obj fs =>
    match getField fs "assets" with
    | some av =>
      if truthy av then .obj (mapField fs "assets" (mapArr compressAsset))
      else .obj fs
    | none => .obj fs
  | v => v

mutual
/-- `removeExpressions`: drop every object entry whose key is `x` and whose
value is a string. -/
def removeExpressions : JVal → JVal
  | .arr xs => .arr (removeExpressionsArr xs)
  | .obj fs => .obj (removeExpressionsObj fs)
  | v => v
def removeExpressionsArr : List JVal → List JVal
  | [] => []
  | x :: xs => removeExpressions x :: removeExpressionsArr xs
def removeExpressionsObj : List (String × JVal) → List (String × JVal)
  | [] => []
  | (k, v) :: fs =>
    if k == "x" && v.isStr then removeExpressionsObj fs
    else (k, removeExpressions v) :: removeExpressionsObj fs
end

mutual
/-- `removeEffects`: drop every object entry whose key is `ef` and whose value
is an array. -/
def removeEffects : JVal → JVal
  | .arr xs => .arr (removeEffectsArr xs)
  | .obj fs => .obj (removeEffectsObj fs)
  | v => v
def removeEffectsArr : List JVal → List JVal
  | [] => []
  | x :: xs => removeEffects x :: removeEffectsArr xs
def removeEffectsObj : List (String × JVal) → List (String × JVal)
  | [] => []
  | (k, v) :: fs =>
    if k == "ef" && v.isArr then removeEffectsObj fs
    else (k, removeEffects v) :: removeEffectsObj fs
end

/-- The filter predicate of `removeEmptyGroups`: the (already transformed)
array item is an object tagged `ty: 'gr'` whose `it` list has at most one
entry. -/
def isEmptyGroup (v : JVal) : Bool :=
  match v with
  | .obj fs =>
    (match getField fs "ty" with | some (.str t) => t == "gr" | _ => false)
    && (match getField fs "it" with | some (.arr its) => decide (its.length ≤ 1) | _ => false)
  | _ => false

mutual
/-- `removeEmptyGroups`: bottom-up removal of degenerate shape groups from
every array. -/
def removeEmptyGroups : JVal → JVal
  | .arr xs => .arr (removeEmptyGroupsArr xs)
  | .obj fs => .obj (removeEmptyGroupsObj fs)
  | v => v
def removeEmptyGroupsArr : List JVal → List JVal
  | [] => []
  | x :: xs =>
    let x1 := removeEmptyGroups x
    if isEmptyGroup x1 then removeEmptyGroupsArr xs
    else x1 :: removeEmptyGroupsArr xs
def removeEmptyGroupsObj : List (String × JVal) → List (String × JVal)
  | [] => []
  | (k, v) :: fs => (k, removeEmptyGroups v) :: removeEmptyGroupsObj fs
end

/-- First component extraction for a bezier handle coordinate:
`Array.isArray(x) ? x[0] : x` (an empty array yields `undefined`). -/
def handleCoord : Option JVal → Option JVal
  | some (.arr xs) => xs.head?
  | some v => some v
  | none => none

/-- `Math.abs(c - 0.5) < 0.01` on a coordinate value:
`|n/10^e - 1/2| < 1/100` iff `50 * |2*n - 10^e| < 10^e`.  The source casts
the handle to `{ x: number | number[]; y: number | number[] }`, so the
coordinate is numeric; a missing coordinate (`undefined`) makes the
comparison `NaN < 0.01`, i.e. false.  `null`, `true` and `false` coerce to
0, 1 and 0, none of which is within 0.01 of 0.5, so `false` is also their
faithful result. -/
def nearHalf : Option JVal → Bool
  | some (.num n e) => decide (50 * (2 * n - ((10 ^ e : ℕ) : ℤ)).natAbs < 10 ^ e)
  | _ => false

/-- Whether `simplifyKeyframes` drops a bezier easing handle (`i`/`o` value):
it must be an object and both extracted coordinates must be within 0.01 of
0.5.  (A JS array passes the `typeof === 'object'` test but has no `x`/`y`
properties, so it is never dropped.) -/
def dropHandle (v : JVal) : Bool :=
  match v with
  | .obj fs => nearHalf (handleCoord (getField fs "x")) && nearHalf (handleCoord (getField fs "y"))
  | _ => false

/-- Per-keyframe step of `simplifyKeyframes`: rebuild the keyframe keeping
every entry except qualifying `i`/`o` easing handles.  `Object.entries` of a
primitive is empty (the source then produces `{}`), and of an array is its
index/value pairs. -/
def simplifyKf (kf : JVal) : JVal :=
  match kf with
  | .obj fs => .obj (fs.filter (fun kv => !((kv.1 == "i" || kv.1 == "o") && dropHandle kv.2)))
  | .arr xs => .obj ((List.range xs.length).zip xs |>.map (fun p => (toString p.1, p.2)))
  | _ => .obj []

/-- The keyframe-sequence recognizer: a non-empty array whose first element is
an object with a `t` (time) property. -/
def isKeyframeList : List JVal → Bool
  | kf :: _ => (match kf with | .obj fs => hasField fs "t" | _ => false)
  | [] => false

mutual
/-- `simplifyKeyframes`: inside any object, a `k` entry holding a recognized
keyframe array is rewritten keyframe-by-keyframe (without recursing into the
keyframe values); every other entry recurses. -/
def simplifyKeyframes : JVal → JVal
  | .arr xs => .arr (simplifyKeyframesArr xs)
  | .obj fs => .obj (simplifyKeyframesObj fs)
  | v => v
def simplifyKeyframesArr : List JVal → List JVal
  | [] => []
  | x :: xs => simplifyKeyframes x :: simplifyKeyframesArr xs
def simplifyKeyframesObj : List (String × JVal) → List (String × JVal)
  | [] => []
  | (k, v) :: fs =>
    (if k = "k" then
      match v with
      | .arr kfs =>
        if isKeyframeList kfs then (k, .arr (kfs.map simplifyKf))
        else (k, simplifyKeyframes v)
      | _ => (k, simplifyKeyframes v)
    else (k, simplifyKeyframes v)) :: simplifyKeyframesObj fs
end

/-- `k === c || (Array.isArray(k) && k.length === 1 && k[0] === c)`. -/
def kScalarOrSingle (k : Option JVal) (c : ℤ) : Bool :=
  match k with
  | some v => v.isNumEq c || (match v with
    | .arr [w] => w.isNumEq c
    | _ => false)
  | none => false

/-- `Array.isArray(k) && k.every(v => v === c)`. -/
def kAllEq (k : Option JVal) (c : ℤ) : Bool :=
  match k with
  | some (.arr xs) => xs.all (fun v => v.isNumEq c)
  | _ => false

/-- The identity/default test of `collapseTransforms` for a transform
sub-property object: non-animated (`a === 0` or absent) and the static `k`
value equals the renderer default for that sub-property key. -/
def isDefaultTransformProp (tKey : String) (tv : JVal) : Bool :=
  match tv with
  | .obj pfs =>
    (match getField pfs "a" with
     | some (.num a _) => decide (a = 0)
     | some _ => false
     | none => true)
    &&
    (let k := getField pfs "k"
     (tKey == "o" && kScalarOrSingle k 100)
     || (tKey == "r" && kScalarOrSingle k 0)
     || (tKey == "p" && kAllEq k 0)
     || (tKey == "a" && kAllEq k 0)
     || (tKey == "s" && kAllEq k 100))
  | _ => false

mutual
/-- `collapseTransforms`: inside any object, a `ks` entry holding a transform
object has its default-valued non-animated sub-properties removed (the kept
ones recurse); every other entry recurses. -/
def collapseTransforms : JVal → JVal
  | .arr xs => .arr (collapseTransformsArr xs)
  | .obj fs => .obj (collapseTransformsObj fs)
  | v => v
def collapseTransformsArr : List JVal → List JVal
  | [] => []
  | x :: xs => collapseTransforms x :: collapseTransformsArr xs
/-- Entry step: object values are matched at the pattern level (the non-`ks`
object branch inlines `collapseTransforms` on an object, which is
`collapseTransformsObj` on its fields) so the recursion is structural. -/
def collapseTransformsObj : List (String × JVal) → List (String × JVal)
  | [] => []
  | (k, .obj tfs) :: fs =>
    (if k = "ks" then (k, .obj (collapseTransformsTrans tfs))
     else (k, .obj (collapseTransformsObj tfs))) :: collapseTransformsObj fs
  | (k, v) :: fs => (k, collapseTransforms v) :: collapseTransformsObj fs
def collapseTransformsTrans : List (String × JVal) → List (String × JVal)
  | [] => []
  | (tk, tv) :: rest =>
    if isDefaultTransformProp tk tv then collapseTransformsTrans rest
    else (tk, collapseTransforms tv) :: collapseTransformsTrans rest
end

/-- Decimal digit character for `n % 10`. -/
def digitChar10 (n : Nat) : Char := Char.ofNat (48 + n % 10)

/-- Digit characters of a natural number, most significant first; fuel-based
so it reduces by `rfl` (the fuel `n` always suffices since `n / 10` at least
halves). -/
def natCharsAux : Nat → Nat → List Char
  | 0, n => [digitChar10 n]
  | fuel + 1, n => if n < 10 then [digitChar10 n] else natCharsAux fuel (n / 10) ++ [digitChar10 (n % 10)]

def natChars (n : Nat) : List Char := natCharsAux n n

/-- Strip trailing zero decimal digits (and reduce `0.000…` to `0`): JSON
number printing uses the shortest decimal form.  Fuel-structural so it
computes by kernel reduction; fuel `e` always suffices. -/
def decNormAux : Nat → ℤ → Nat → ℤ × Nat
  | 0, n, e => (n, e)
  | fuel + 1, n, e =>
    if e = 0 then (n, 0)
    else if n % 10 = 0 then decNormAux fuel (n / 10) (e - 1)
    else (n, e)

/-- Canonical decimal rendering of `n / 10^e`, modelling how `JSON.stringify`
prints a (finite, non-exponent-range) number: integers bare, other decimal
fractions as `intpart.fracpart` with no trailing zeros. -/
def numStr (n : ℤ) (e : ℕ) : String :=
  let norm := decNormAux e n e
  let m := norm.1.natAbs
  let sgn : String := if norm.1 < 0 then "-" else ""
  if norm.2 = 0 then sgn ++ String.mk (natChars m)
  else
    let ds := natChars m
    let pad := List.replicate ((norm.2 + 1) - ds.length) '0' ++ ds
    sgn ++ String.mk (pad.take (pad.length - norm.2)) ++ "." ++
      String.mk (pad.drop (pad.length - norm.2))

/-- JSON string escaping for quote and backslash. -/
def escChar (c : Char) : List Char :=
  if c = '"' || c = '\\' then ['\\', c] else [c]

def strQuote (s : String) : String :=
  "\"" ++ String.mk (s.data.flatMap escChar) ++ "\""

mutual
/-- `JSON.stringify` on a JSON value: the canonical compact serialization the
source uses both for size accounting and for deep-equality comparison of
keyframe values. -/
def jsonStr : JVal → String
  | .null => "null"
  | .bool true => "true"
  | .bool false => "false"
  | .num n e => numStr n e
  | .str s => strQuote s
  | .arr xs => "[" ++ jsonStrItems xs ++ "]"
  | .obj fs => "\x7b" ++ jsonStrFields fs ++ "\x7d"
def jsonStrItems : List JVal → String
  | [] => ""
  | [x] => jsonStr x
  | x :: y :: xs => jsonStr x ++ "," ++ jsonStrItems (y :: xs)
def jsonStrFields : List (String × JVal) → String
  | [] => ""
  | [kv] => strQuote kv.1 ++ ":" ++ jsonStr kv.2
  | kv :: kw :: fs => strQuote kv.1 ++ ":" ++ jsonStr kv.2 ++ "," ++ jsonStrFields (kw :: fs)
end

/-- `new Blob([JSON.stringify(x)]).size`: the byte length of the serialized
document (ASCII documents: one byte per character). -/
def serLen (v : JVal) : Nat := (jsonStr v).length

/-- `kf.s` of a keyframe: the start value, when the keyframe is an object
carrying one (`undefined` otherwise). -/
def kfStart : JVal → Option JVal
  | .obj fs => getField fs "s"
  | _ => none

/-- The collapse step `collapseDuplicateKeyframes` applies to an
already-recursed object: if it is an animated property (`a === 1`) whose `k`
is a recognized keyframe array and all present start values stringify
identically, replace it by the static property `{a: 0, k: firstKf.s}` (the
`k` entry is simply absent when the first keyframe has no start value,
matching serialization of an `undefined` property). -/
def collapseConstProp (fs : List (String × JVal)) : JVal :=
  match getField fs "a", getField fs "k" with
  | some (.num a ae), some (.arr kfs) =>
    if a = ((10 ^ ae : ℕ) : ℤ) ∧ isKeyframeList kfs then
      match kfs.filterMap kfStart with
      | [] => .obj fs
      | s0 :: srest =>
        if srest.all (fun s => jsonStr s == jsonStr s0) then
          match kfs.head? with
          | some kf0 =>
            match kfStart kf0 with
            | some s => .obj [("a", .num 0 0), ("k", s)]
            | none => .obj [("a", .num 0 0)]
          | none => .obj fs
        else .obj fs
    else .obj fs
  | _, _ => .obj fs

mutual
/-- `collapseDuplicateKeyframes`: recurse into all children first, then
collapse the object itself when it is a constant animated property. -/
def collapseDuplicateKeyframes : JVal → JVal
  | .arr xs => .arr (collapseDuplicateKeyframesArr xs)
  | .obj fs => collapseConstProp (collapseDuplicateKeyframesObj fs)
  | v => v
def collapseDuplicateKeyframesArr : List JVal → List JVal
  | [] => []
  | x :: xs => collapseDuplicateKeyframes x :: collapseDuplicateKeyframesArr xs
def collapseDuplicateKeyframesObj : List (String × JVal) → List (String × JVal)
  | [] => []
  | (k, v) :: fs => (k, collapseDuplicateKeyframes v) :: collapseDuplicateKeyframesObj fs
end

mutual
/-- `findUsedAssets`: every string value of a truthy `refId` property found
anywhere under the given value, in traversal order (the property itself is
checked before the object's values are scanned).  An empty-string `refId` is
falsy and is skipped by the source's `record.refId &&` guard. -/
def refIdsOf : JVal → List String
  | .arr xs => refIdsOfArr xs
  | .obj fs =>
    (match getField fs "refId" with
     | some (.str id) => if id = "" then [] else [id]
     | _ => []) ++ refIdsOfFields fs
  | _ => []
def refIdsOfArr : List JVal → List String
  | [] => []
  | x :: xs => refIdsOf x ++ refIdsOfArr xs
def refIdsOfFields : List (String × JVal) → List String
  | [] => []
  | (_, v) :: fs => refIdsOf v ++ refIdsOfFields fs
end

/-- `Set.add`: append an element unless already present (JS `Set` keeps
insertion order and ignores duplicates). -/
def addId (ids : List String) (x : String) : List String :=
  if x ∈ ids then ids else ids ++ [x]

def addIds (ids : List String) (xs : List String) : List String :=
  xs.foldl addId ids

/-- `result.assets?.find(a => a.id === id)`. -/
def findAsset (assets : List JVal) (id : String) : Option JVal :=
  assets.find? (fun a =>
    match a with
    | .obj fs => (match getField fs "id" with | some (.str s) => s == id | _ => false)
    | _ => false)

/-- The identifiers added when the worklist processes `id`: the `refId`s under
the truthy `layers` of the first asset whose `id` matches (none when no such
asset or no truthy layer list). -/
def assetSucc (assets : List JVal) (id : String) : List String :=
  match findAsset assets id with
  | some (.obj afs) =>
    (match getField afs "layers" with
     | some lv => if truthy lv then refIdsOf lv else []
     | none => [])
  | _ => []

/-- The `usedAssetIds.forEach` loop of `removeUnusedAssets`: JS `Set.forEach`
visits elements appended during the iteration, so the traversal is a
worklist that scans position `i` and grows the list until it stabilizes.
The fuel bounds the number of iterations; `removeUnusedAssets` passes fuel
that provably suffices. -/
def assetLoop (assets : List JVal) : Nat → Nat → List String → List String
  | 0, _, ids => ids
  | fuel + 1, i, ids =>
    if h : i < ids.length then
      assetLoop assets fuel (i + 1) (addIds ids (assetSucc assets (ids.get ⟨i, h⟩)))
    else ids

/-- All identifiers the worklist can ever contain: the seeds plus every
asset's own layer `refId`s. -/
def assetRefCandidates (assets : List JVal) (lv : JVal) : List String :=
  refIdsOf lv ++ assets.flatMap (fun a =>
    match a with
    | .obj afs =>
      (match getField afs "layers" with
       | some alv => if truthy alv then refIdsOf alv else []
       | none => [])
    | _ => [])

/-- The used-asset identifier set computed by `removeUnusedAssets` for a
document with layer value `lv` and asset list `assets`. -/
def usedAssetIds (assets : List JVal) (lv : JVal) : List String :=
  assetLoop assets ((assetRefCandidates assets lv).length + 1) 0 (addIds [] (refIdsOf lv))

/-- `asset.id` when it is a string (`has` on a string set can only succeed
for a string id). -/
def assetId (a : JVal) : Option String :=
  match a with
  | .obj fs => (match getField fs "id" with | some (.str id) => some id | _ => none)
  | _ => none

/-- `usedAssetIds.has(asset.id)`: kept assets are those whose string `id` is
in the used set. -/
def assetKept (used : List String) (a : JVal) : Bool :=
  match assetId a with
  | some id => used.contains id
  | none => false

/-- `removeUnusedAssets`: returns the document unchanged when `assets` or
`layers` is absent or falsy; otherwise collects the transitively referenced
asset identifiers (top-level layers first, then — via the worklist — the
layers of every referenced asset) and filters the asset list. -/
def removeUnusedAssets : JVal → JVal
  | .obj fs =>
    match getField fs "assets", getField fs "layers" with
    | some av, some lv =>
      if truthy av && truthy lv then
        match av with
        | .arr assets =>
          .obj (mapField fs "assets"
            (fun _ => .arr (assets.filter (assetKept (usedAssetIds assets lv)))))
        | _ => .obj fs
      else .obj fs
    | _, _ => .obj fs
  | v => v

/-- The options record; `decimalPrecision` is the integer precision 0–4. -/
structure OptimizationOptions where
  removeHiddenLayers : Bool
  roundDecimals : Bool
  decimalPrecision : Nat
  removeMetadata : Bool
  removeEmptyGroups : Bool
  simplifyKeyframes : Bool
  removeDefaultValues : Bool
  compressImages : Bool
  removeExpressions : Bool
  removeEffects : Bool
  collapseTransforms : Bool
  collapseDuplicateKeyframes : Bool

/-- `defaultOptions`: all safe passes on (precision 2), all aggressive passes
off. -/
def defaultOptions : OptimizationOptions where
  removeHiddenLayers := true
  roundDecimals := true
  decimalPrecision := 2
  removeMetadata := true
  removeEmptyGroups := true
  simplifyKeyframes := true
  removeDefaultValues := true
  compressImages := true
  removeExpressions := false
  removeEffects := false
  collapseTransforms := false
  collapseDuplicateKeyframes := false

/-- The result record of `optimizeLottie`.  `savings` may be negative in
principle, hence `Int`; `savingsPercentage` is the exact rational
`savings / originalSize * 100` (the denominator is never zero: a serialized
JSON value is at least one byte). -/
structure OptimizationResult where
  originalSize : Nat
  optimizedSize : Nat
  savings : Int
  savingsPercentage : ℚ
  optimizedAnimation : JVal

/-- `if (options.flag) { x = pass(x) }`. -/
def condPass (b : Bool) (f : JVal → JVal) (v : JVal) : JVal :=
  if b then f v else v

/-- The pass pipeline of `optimizeLottie` in the source's fixed order:
metadata, hidden layers, the unconditional unused-asset removal, empty
groups, keyframe simplification, default values, rounding, image
compression, then the four aggressive passes. -/
def optimizePasses (options : OptimizationOptions) (v : JVal) : JVal :=
  condPass options.collapseDuplicateKeyframes collapseDuplicateKeyframes
  (condPass options.collapseTransforms collapseTransforms
  (condPass options.removeEffects removeEffects
  (condPass options.removeExpressions removeExpressions
  (condPass options.compressImages compressBase64Images
  (condPass options.roundDecimals (fun w => roundDecimals w options.decimalPrecision)
  (condPass options.removeDefaultValues removeUnnecessaryProperties
  (condPass options.simplifyKeyframes simplifyKeyframes
  (condPass options.removeEmptyGroups removeEmptyGroups
  (removeUnusedAssets
  (condPass options.removeHiddenLayers removeHiddenLayers
  (condPass options.removeMetadata removeMetadata (deepClone v))))))))))))

/-- `optimizeLottie`: measure the untouched input, deep-clone it, apply each
enabled pass in the source's fixed order (unused-asset removal always runs),
measure the result and return the sizes, savings and transformed document. -/
def optimizeLottie (animation : JVal) (options : OptimizationOptions) :
    OptimizationResult :=
  let originalSize := serLen animation
  let optimized := optimizePasses options animation
  let optimizedSize := serLen optimized
  let savings : Int := (originalSize : Int) - (optimizedSize : Int)
  { originalSize := originalSize
    optimizedSize := optimizedSize
    savings := savings
    savingsPercentage := ((savings : ℚ) / (originalSize : ℚ)) * 100
    optimizedAnimation := optimized }

/-- `typeof obj.k === 'string'`. -/
def isStrField (fs : List (String × JVal)) (key : String) : Bool :=
  match getField fs key with
  | some (.str _) => true
  | _ => false

/-- `typeof obj.k === 'number'`. -/
def isNumField (fs : List (String × JVal)) (key : String) : Bool :=
  match getField fs key with
  | some (.num _ _) => true
  | _ => false

/-- `validateLottie`: a non-null JS object (arrays pass the `typeof` test but
have none of the six properties) with a string `v` and numeric `fr`, `ip`,
`op`, `w`, `h`. -/
def validateLottie : JVal → Bool
  | .obj fs =>
    isStrField fs "v" && isNumField fs "fr" && isNumField fs "ip"
    && isNumField fs "op" && isNumField fs "w" && isNumField fs "h"
  | _ => false

/-- Top-level property read on a document value. -/
def topField (v : JVal) (key : String) : Option JVal :=
  match v with
  | .obj fs => getField fs key
  | _ => none

/-! ## Basic lemmas -/

theorem natCharsAux_length_pos : ∀ fuel n, 1 ≤ (natCharsAux fuel n).length
  | 0, n => by simp [natCharsAux]
  | fuel + 1, n => by
    by_cases h : n < 10 <;> simp [natCharsAux, h]

theorem one_le_serLen (v : JVal) : 1 ≤ serLen v := by
  cases v with
  | null => decide
  | bool b => cases b <;> decide
  | num n e =>
    simp only [serLen, jsonStr, numStr]
    split
    · simp only [String.length_append, String.length_mk]
      have := natCharsAux_length_pos (decNormAux e n e).1.natAbs (decNormAux e n e).1.natAbs
      simp only [natChars]
      omega
    · simp only [String.length_append]
      have : ("." : String).length = 1 := by decide
      omega
  | str s =>
    simp only [serLen, jsonStr, strQuote, String.length_append]
    have : ("\"" : String).length = 1 := by decide
    omega
  | arr xs =>
    simp only [serLen, jsonStr, String.length_append]
    have : ("[" : String).length = 1 := by decide
    omega
  | obj fs =>
    simp only [serLen, jsonStr, String.length_append]
    have : ("\x7b" : String).length = 1 := by decide
    omega

theorem isStrField_iff (fs : List (String × JVal)) (key : String) :
    isStrField fs key = true ↔ ∃ s, getField fs key = some (.str s) := by
  unfold isStrField
  split
  · next s h => exact ⟨fun _ => ⟨s, h⟩, fun _ => rfl⟩
  · next h =>
    constructor
    · intro hf; cases hf
    · rintro ⟨s, hs⟩; exact absurd hs (h s)

theorem isNumField_iff (fs : List (String × JVal)) (key : String) :
    isNumField fs key = true ↔ ∃ n e, getField fs key = some (.num n e) := by
  unfold isNumField
  split
  · next n e h => exact ⟨fun _ => ⟨n, e, h⟩, fun _ => rfl⟩
  · next h =>
    constructor
    · intro hf; cases hf
    · rintro ⟨n, e, hs⟩; exact absurd hs (h n e)

/-- Structural characterization of `validateLottie`. -/
theorem validateLottie_eq_true_iff (v : JVal) :
    validateLottie v = true ↔
      ∃ fs, v = .obj fs ∧
        (∃ s, getField fs "v" = some (.str s)) ∧
        (∃ n e, getField fs "fr" = some (.num n e)) ∧
        (∃ n e, getField fs "ip" = some (.num n e)) ∧
        (∃ n e, getField fs "op" = some (.num n e)) ∧
        (∃ n e, getField fs "w" = some (.num n e)) ∧
        (∃ n e, getField fs "h" = some (.num n e)) := by
  cases v with
  | obj fs =>
    simp only [validateLottie, Bool.and_eq_true, isStrField_iff, isNumField_iff]
    constructor
    · rintro ⟨⟨⟨⟨⟨h1, h2⟩, h3⟩, h4⟩, h5⟩, h6⟩
      exact ⟨fs, rfl, h1, h2, h3, h4, h5, h6⟩
    · rintro ⟨fs2, heq, h1, h2, h3, h4, h5, h6⟩
      cases heq
      exact ⟨⟨⟨⟨⟨h1, h2⟩, h3⟩, h4⟩, h5⟩, h6⟩
  | null =>
    simp only [validateLottie, Bool.false_eq_true, false_iff]
    rintro ⟨fs, heq, -⟩; cases heq
  | bool b =>
    simp only [validateLottie, Bool.false_eq_true, false_iff]
    rintro ⟨fs, heq, -⟩; cases heq
  | num n e =>
    simp only [validateLottie, Bool.false_eq_true, false_iff]
    rintro ⟨fs, heq, -⟩; cases heq
  | str s =>
    simp only [validateLottie, Bool.false_eq_true, false_iff]
    rintro ⟨fs, heq, -⟩; cases heq
  | arr xs =>
    simp only [validateLottie, Bool.false_eq_true, false_iff]
    rintro ⟨fs, heq, -⟩; cases heq

/-! ## Claim C7 — validation -/

/-- C7: for every input value, `validateLottie` returns true if and only if
the value is an object and the six required fields are present with the
correct primitive types (string format version `v`, numeric `fr`, `ip`,
`op`, `w`, `h`); it imposes no other constraint. -/
theorem C7_validate_characterization (v : JVal) :
    validateLottie v = true ↔
      ∃ fs, v = .obj fs ∧
        (∃ s, getField fs "v" = some (.str s)) ∧
        (∃ n e, getField fs "fr" = some (.num n e)) ∧
        (∃ n e, getField fs "ip" = some (.num n e)) ∧
        (∃ n e, getField fs "op" = some (.num n e)) ∧
        (∃ n e, getField fs "w" = some (.num n e)) ∧
        (∃ n e, getField fs "h" = some (.num n e)) :=
  validateLottie_eq_true_iff v

/-! ## Claim C9 — unused-asset removal without layers or assets -/

/-- C9: when the document has no top-level `layers` field or no top-level
`assets` field, `removeUnusedAssets` returns it unchanged (deep clone of the
input); in particular unreferenced assets are retained when `layers` is
absent. -/
theorem C9_no_layers_or_assets_noop (fs : List (String × JVal))
    (h : getField fs "layers" = none ∨ getField fs "assets" = none) :
    removeUnusedAssets (.obj fs) = .obj fs := by
  rcases h with h | h
  · cases ha : getField fs "assets" <;> simp [removeUnusedAssets, ha, h]
  · simp [removeUnusedAssets, h]

theorem C9_no_layers_or_assets_noop_witness :
    getField [("assets", JVal.arr [JVal.obj [("id", JVal.str "B")]])] "layers" = none ∧
      removeUnusedAssets (.obj [("assets", JVal.arr [JVal.obj [("id", JVal.str "B")]])]) =
        .obj [("assets", JVal.arr [JVal.obj [("id", JVal.str "B")]])] :=
  ⟨rfl, C9_no_layers_or_assets_noop _ (Or.inl rfl)⟩

/-! ## Claim C3 — size accounting -/

/-- C3: for every document and options record, the result satisfies
`savings = originalSize - optimizedSize` and
`savingsPercentage = savings / originalSize * 100`; the original size is at
least one byte (a serialized JSON value is never empty), so the division is
never by zero and the `0`-when-zero clause never has to fire. -/
theorem C3_savings_accounting (d : JVal) (o : OptimizationOptions) :
    (optimizeLottie d o).savings =
      ((optimizeLottie d o).originalSize : ℤ) - ((optimizeLottie d o).optimizedSize : ℤ) ∧
    (optimizeLottie d o).savingsPercentage =
      (((optimizeLottie d o).savings : ℚ) / ((optimizeLottie d o).originalSize : ℚ)) * 100 ∧
    1 ≤ (optimizeLottie d o).originalSize :=
  ⟨rfl, rfl, one_le_serLen d⟩

/-! ## Claim C4 — the spec's monotone-size property fails on the code -/

/-- Options enabling only the keyframe-simplification pass. -/
def simplifyOnlyOptions : OptimizationOptions where
  removeHiddenLayers := false
  roundDecimals := false
  decimalPrecision := 2
  removeMetadata := false
  removeEmptyGroups := false
  simplifyKeyframes := true
  removeDefaultValues := false
  compressImages := false
  removeExpressions := false
  removeEffects := false
  collapseTransforms := false
  collapseDuplicateKeyframes := false

/-- A valid document whose `k` array is recognized as a keyframe sequence
(first element an object with a `t` field) but contains the number `5` as a
second "keyframe". -/
def numberKeyframeDoc : JVal :=
  .obj [("v", .str "5"), ("fr", .num 1 0), ("ip", .num 0 0), ("op", .num 1 0),
        ("w", .num 1 0), ("h", .num 1 0),
        ("k", .arr [.obj [("t", .num 0 0)], .num 5 0])]

/-- C4: the optimized byte size can exceed the original byte size.  On
`numberKeyframeDoc` with only `simplifyKeyframes` enabled, the per-keyframe
rewrite turns the number `5` (`Object.entries` of a primitive is empty) into
the empty object `{}`, growing the serialized document by one byte. -/
theorem C4_size_not_monotonic :
    validateLottie numberKeyframeDoc = true ∧
    (optimizeLottie numberKeyframeDoc simplifyOnlyOptions).optimizedSize =
      (optimizeLottie numberKeyframeDoc simplifyOnlyOptions).originalSize + 1 ∧
    (optimizeLottie numberKeyframeDoc simplifyOnlyOptions).originalSize <
      (optimizeLottie numberKeyframeDoc simplifyOnlyOptions).optimizedSize := by
  refine ⟨rfl, ?_, ?_⟩ <;> decide

/-! ## Claim C1 — required fields through `optimize` -/

/-- A valid document whose frame rate `0.005` has more decimals than the
default rounding precision. -/
def fineFrameRateDoc : JVal :=
  .obj [("v", .str "5.5.0"), ("fr", .num 5 3), ("ip", .num 0 0),
        ("op", .num 30 0), ("w", .num 100 0), ("h", .num 100 0)]

/-- C1 counterexample: under the default options the rounding pass changes
the value of the required field `fr` from `0.005` to `0.01`, so the claim
that the six required fields keep exactly their values fails. -/
theorem C1_counterexample :
    validateLottie fineFrameRateDoc = true ∧
    topField fineFrameRateDoc "fr" = some (.num 5 3) ∧
    topField (optimizeLottie fineFrameRateDoc defaultOptions).optimizedAnimation "fr" =
      some (.num 1 2) ∧
    numVal 5 3 < numVal 1 2 := by
  refine ⟨rfl, rfl, rfl, ?_⟩
  show (5 : ℚ) / ((10 ^ 3 : ℕ) : ℚ) < (1 : ℚ) / ((10 ^ 2 : ℕ) : ℚ)
  norm_num

/-! ## Claim C2 — asset liveness of `optimize`'s final output -/

/-- A document whose only asset is referenced from a live layer but is itself
shaped like an empty shape group (`ty: 'gr'`, `it: []`). -/
def groupShapedAssetDoc : JVal :=
  .obj [("v", .str "5.5.0"), ("fr", .num 30 0), ("ip", .num 0 0),
        ("op", .num 30 0), ("w", .num 100 0), ("h", .num 100 0),
        ("layers", .arr [.obj [("refId", .str "A")]]),
        ("assets", .arr [.obj [("id", .str "A"), ("ty", .str "gr"), ("it", .arr [])]])]

/-- C2 counterexample: with default options, the surviving layer of the
optimized output still references asset `"A"` (which `removeUnusedAssets`
correctly kept), but the later empty-group pass deletes the asset from the
asset list, so a referenced-and-surviving asset *is* dropped from
`optimize`'s final output. -/
theorem C2_counterexample :
    topField groupShapedAssetDoc "assets" =
      some (.arr [.obj [("id", .str "A"), ("ty", .str "gr"), ("it", .arr [])]]) ∧
    removeUnusedAssets (removeHiddenLayers (removeMetadata groupShapedAssetDoc)) =
      removeHiddenLayers (removeMetadata groupShapedAssetDoc) ∧
    topField (optimizeLottie groupShapedAssetDoc defaultOptions).optimizedAnimation "layers" =
      some (.arr [.obj [("refId", .str "A")]]) ∧
    topField (optimizeLottie groupShapedAssetDoc defaultOptions).optimizedAnimation "assets" =
      some (.arr []) :=
  ⟨rfl, rfl, rfl, rfl⟩

/-! ## Claim C6 — collapse of constant keyframe sequences -/

/-- A keyframe whose start value is `7` and which is itself a collapsible
animated property. -/
def selfAnimatedKf : JVal :=
  .obj [("t", .num 0 0), ("s", .num 7 0),
        ("a", .num 1 0), ("k", .arr [.obj [("t", .num 0 0), ("s", .num 3 0)]])]

/-- An animated property whose single keyframe is `selfAnimatedKf`: its
animated-flag is 1, its first keyframe has a time field, and all (one)
start values are equal, so the claim says it must become
`{a: 0, k: 7}`. -/
def selfAnimatedProp : JVal := .obj [("a", .num 1 0), ("k", .arr [selfAnimatedKf])]

/-- C6 counterexample: the pass recurses into the keyframes first, collapsing
the keyframe itself to `{a: 0, k: 3}`, which no longer carries a `t` field;
the enclosing property therefore stays animated (`a` remains 1) instead of
being replaced by the static `{a: 0, k: 7}` the claim demands. -/
theorem C6_counterexample :
    topField selfAnimatedProp "a" = some (.num 1 0) ∧
    topField selfAnimatedProp "k" = some (.arr [selfAnimatedKf]) ∧
    isKeyframeList [selfAnimatedKf] = true ∧
    kfStart selfAnimatedKf = some (.num 7 0) ∧
    collapseDuplicateKeyframes selfAnimatedProp =
      .obj [("a", .num 1 0), ("k", .arr [.obj [("a", .num 0 0), ("k", .num 3 0)]])] ∧
    topField (collapseDuplicateKeyframes selfAnimatedProp) "a" = some (.num 1 0) :=
  ⟨rfl, rfl, rfl, rfl, rfl, rfl⟩

/-! ## Claim C8 — re-validation after `optimize` -/

/-- Options enabling only the collapse-duplicate-keyframes pass. -/
def collapseDupOnlyOptions : OptimizationOptions where
  removeHiddenLayers := false
  roundDecimals := false
  decimalPrecision := 2
  removeMetadata := false
  removeEmptyGroups := false
  simplifyKeyframes := false
  removeDefaultValues := false
  compressImages := false
  removeExpressions := false
  removeEffects := false
  collapseTransforms := false
  collapseDuplicateKeyframes := true

/-- A valid document which is itself shaped like a constant animated property
(top-level `a: 1` and a constant keyframe list `k`). -/
def animatedRootDoc : JVal :=
  .obj [("v", .str "5.5.0"), ("fr", .num 30 0), ("ip", .num 0 0),
        ("op", .num 30 0), ("w", .num 100 0), ("h", .num 100 0),
        ("a", .num 1 0), ("k", .arr [.obj [("t", .num 0 0), ("s", .num 1 0)]])]

/-- C8 counterexample: enabling the aggressive collapse-duplicate-keyframes
pass on `animatedRootDoc` replaces the whole document by the static property
`{a: 0, k: 1}`, destroying all six required fields, so re-validation
fails. -/
theorem C8_counterexample :
    validateLottie animatedRootDoc = true ∧
    (optimizeLottie animatedRootDoc collapseDupOnlyOptions).optimizedAnimation =
      .obj [("a", .num 0 0), ("k", .num 1 0)] ∧
    validateLottie (optimizeLottie animatedRootDoc collapseDupOnlyOptions).optimizedAnimation =
      false :=
  ⟨rfl, rfl, rfl⟩

theorem getField_cdkObj (fs : List (String × JVal)) (k : String) :
    getField (collapseDuplicateKeyframesObj fs) k =
      (getField fs k).map collapseDuplicateKeyframes := by
  induction fs with
  | nil => rfl
  | cons kv fs ih =>
    obtain ⟨k1, v1⟩ := kv
    simp only [collapseDuplicateKeyframesObj, getField, ih]
    cases hf : getField fs k with
    | some w => simp
    | none => by_cases h : k1 = k <;> simp [h]

theorem cdkArr_fixpoint : ∀ kfs : List JVal,
    (∀ kf ∈ kfs, collapseDuplicateKeyframes kf = kf) →
    collapseDuplicateKeyframesArr kfs = kfs
  | [], _ => rfl
  | kf :: kfs, h => by
    simp only [collapseDuplicateKeyframesArr]
    rw [h kf (List.mem_cons_self kf kfs),
      cdkArr_fixpoint kfs (fun x hx => h x (List.mem_cons_of_mem kf hx))]

theorem filterMap_kfStart_const : ∀ (kfs : List JVal) (s0 : JVal),
    (∀ kf ∈ kfs, kfStart kf = some s0) →
    kfs.filterMap kfStart = kfs.map (fun _ => s0)
  | [], _, _ => rfl
  | kf :: kfs, s0, h => by
    simp only [List.filterMap_cons, List.map_cons, h kf (List.mem_cons_self kf kfs)]
    rw [filterMap_kfStart_const kfs s0 (fun x hx => h x (List.mem_cons_of_mem kf hx))]

/-- C6 amended: the collapse happens as claimed provided the pass leaves the
individual keyframes unchanged (the pass recurses into keyframe contents
first, so a keyframe that is itself a collapsible animated property is
rewritten before the enclosing property is inspected — see
`C6_counterexample`): an animated property (`a` of value 1) whose keyframe
list starts with an object carrying a `t` field and all of whose keyframes
carry one and the same start value `s0` is replaced by the static property
`{a: 0, k: s0}`. -/
theorem C6_collapse_constant (fs : List (String × JVal)) (a : ℤ) (ae : ℕ)
    (kf0 : JVal) (kfs : List JVal) (g0 : List (String × JVal)) (s0 : JVal)
    (ha : getField fs "a" = some (.num a ae))
    (ha1 : a = ((10 ^ ae : ℕ) : ℤ))
    (hk : getField fs "k" = some (.arr (kf0 :: kfs)))
    (hkf0 : kf0 = .obj g0)
    (ht : hasField g0 "t" = true)
    (hs : ∀ kf ∈ kf0 :: kfs, kfStart kf = some s0)
    (hfix : ∀ kf ∈ kf0 :: kfs, collapseDuplicateKeyframes kf = kf) :
    collapseDuplicateKeyframes (.obj fs) = .obj [("a", .num 0 0), ("k", s0)] := by
  have hA : getField (collapseDuplicateKeyframesObj fs) "a" = some (.num a ae) := by
    rw [getField_cdkObj, ha]; rfl
  have hK : getField (collapseDuplicateKeyframesObj fs) "k" =
      some (.arr (kf0 :: kfs)) := by
    rw [getField_cdkObj, hk]
    show some (collapseDuplicateKeyframes (.arr (kf0 :: kfs))) = _
    rw [show collapseDuplicateKeyframes (.arr (kf0 :: kfs)) =
        .arr (collapseDuplicateKeyframesArr (kf0 :: kfs)) from rfl,
      cdkArr_fixpoint _ hfix]
  have hkl : isKeyframeList (kf0 :: kfs) = true := by
    subst hkf0; simp [isKeyframeList, ht]
  show collapseConstProp (collapseDuplicateKeyframesObj fs) = _
  unfold collapseConstProp
  rw [hA, hK]
  show (if a = ((10 ^ ae : ℕ) : ℤ) ∧ isKeyframeList (kf0 :: kfs) = true then
      match List.filterMap kfStart (kf0 :: kfs) with
      | [] => JVal.obj (collapseDuplicateKeyframesObj fs)
      | s1 :: srest =>
        if (srest.all fun s => jsonStr s == jsonStr s1) = true then
          match (kf0 :: kfs).head? with
          | some kf1 =>
            match kfStart kf1 with
            | some s => JVal.obj [("a", JVal.num 0 0), ("k", s)]
            | none => JVal.obj [("a", JVal.num 0 0)]
          | none => JVal.obj (collapseDuplicateKeyframesObj fs)
        else JVal.obj (collapseDuplicateKeyframesObj fs)
    else JVal.obj (collapseDuplicateKeyframesObj fs)) = JVal.obj [("a", JVal.num 0 0), ("k", s0)]
  rw [if_pos (show a = ((10 ^ ae : ℕ) : ℤ) ∧ isKeyframeList (kf0 :: kfs) = true from
    ⟨ha1, hkl⟩)]
  rw [filterMap_kfStart_const _ s0 hs]
  simp only [List.map_cons]
  have hall : (kfs.map fun _ => s0).all (fun s => jsonStr s == jsonStr s0) = true := by
    simp [List.all_eq_true]
  rw [if_pos hall]
  simp only [List.head?]
  rw [hs kf0 (List.mem_cons_self kf0 kfs)]

theorem C6_collapse_constant_witness :
    collapseDuplicateKeyframes (.obj [("a", .num 1 0),
        ("k", .arr [.obj [("t", .num 0 0), ("s", .num 5 0)]])]) =
      .obj [("a", .num 0 0), ("k", .num 5 0)] :=
  C6_collapse_constant [("a", .num 1 0),
      ("k", .arr [.obj [("t", .num 0 0), ("s", .num 5 0)]])] 1 0
    (.obj [("t", .num 0 0), ("s", .num 5 0)]) [] [("t", .num 0 0), ("s", .num 5 0)]
    (.num 5 0) rfl (by decide) rfl rfl rfl
    (fun kf hkf => by rw [List.mem_singleton.mp hkf]; rfl)
    (fun kf hkf => by rw [List.mem_singleton.mp hkf]; rfl)

theorem nearHalf_num_iff (n : ℤ) (e : ℕ) :
    nearHalf (some (.num n e)) = true ↔ |numVal n e - 1 / 2| < 1 / 100 := by
  have hP : (0 : ℚ) < ((10 ^ e : ℕ) : ℚ) := by positivity
  have key : numVal n e - 1 / 2 =
      ((2 * n - ((10 ^ e : ℕ) : ℤ) : ℤ) : ℚ) / (2 * ((10 ^ e : ℕ) : ℚ)) := by
    unfold numVal
    rw [eq_div_iff (by positivity : (2 : ℚ) * ((10 ^ e : ℕ) : ℚ) ≠ 0)]
    field_simp
    ring
  rw [key, abs_div, abs_of_pos (by positivity : (0 : ℚ) < 2 * ((10 ^ e : ℕ) : ℚ)),
    div_lt_iff₀ (by positivity : (0 : ℚ) < 2 * ((10 ^ e : ℕ) : ℚ)),
    ← Int.cast_abs, Int.abs_eq_natAbs, Int.cast_natCast,
    show (1 : ℚ) / 100 * (2 * ((10 ^ e : ℕ) : ℚ)) = ((10 ^ e : ℕ) : ℚ) / 50 from by ring,
    lt_div_iff₀ (by norm_num : (0 : ℚ) < 50),
    show (((2 * n - ((10 ^ e : ℕ) : ℤ)).natAbs : ℚ) * 50) =
      (((2 * n - ((10 ^ e : ℕ) : ℤ)).natAbs * 50 : ℕ) : ℚ) from by push_cast; ring,
    Nat.cast_lt]
  simp only [nearHalf, decide_eq_true_eq]
  omega

theorem getField_mem_keys (fs : List (String × JVal)) (k : String) (v : JVal)
    (h : getField fs k = some v) : k ∈ fs.map Prod.fst := by
  induction fs with
  | nil => cases h
  | cons kv fs ih =>
    simp only [getField] at h
    rcases hrest : getField fs k with _ | w
    · rw [hrest] at h
      by_cases hh : kv.1 = k
      · simp [← hh]
      · rw [if_neg hh] at h; cases h
    · rw [hrest] at h
      obtain rfl : w = v := by injection h
      exact List.mem_cons_of_mem _ (ih hrest)

theorem getField_filter_none {p : String × JVal → Bool}
    (fs : List (String × JVal)) (k : String) (h : getField fs k = none) :
    getField (fs.filter p) k = none := by
  induction fs with
  | nil => rfl
  | cons kv fs ih =>
    simp only [getField] at h
    rcases hrest : getField fs k with _ | w
    · rw [hrest] at h
      have hk : ¬(kv.1 = k) := by
        intro hh; rw [if_pos hh] at h; cases h
      rw [List.filter_cons]
      split
      · simp only [getField, ih hrest, if_neg hk]
      · exact ih hrest
    · rw [hrest] at h; cases h

theorem getField_filter_keep {p : String × JVal → Bool}
    (fs : List (String × JVal)) (k : String) (v : JVal)
    (h : getField fs k = some v) (hp : p (k, v) = true) :
    getField (fs.filter p) k = some v := by
  induction fs with
  | nil => cases h
  | cons kv fs ih =>
    simp only [getField] at h
    rcases hrest : getField fs k with _ | w
    · rw [hrest] at h
      have hk : kv.1 = k := by
        by_cases hh : kv.1 = k
        · exact hh
        · rw [if_neg hh] at h; cases h
      rw [if_pos hk] at h
      obtain rfl : kv.2 = v := by injection h
      rw [List.filter_cons]
      have : p kv = true := by
        obtain ⟨k1, v1⟩ := kv
        simp only at hk
        subst hk; exact hp
      rw [if_pos this]
      simp only [getField, getField_filter_none fs k hrest, if_pos hk]
    · rw [hrest] at h
      obtain rfl : w = v := by injection h
      have := ih hrest
      rw [List.filter_cons]
      split
      · simp only [getField, this]
      · exact this

theorem getField_filter_drop {p : String × JVal → Bool}
    (fs : List (String × JVal)) (k : String) (v : JVal)
    (hnd : (fs.map Prod.fst).Nodup)
    (h : getField fs k = some v) (hp : p (k, v) = false) :
    getField (fs.filter p) k = none := by
  induction fs with
  | nil => cases h
  | cons kv fs ih =>
    simp only [List.map_cons, List.nodup_cons] at hnd
    simp only [getField] at h
    rcases hrest : getField fs k with _ | w
    · rw [hrest] at h
      have hk : kv.1 = k := by
        by_cases hh : kv.1 = k
        · exact hh
        · rw [if_neg hh] at h; cases h
      rw [if_pos hk] at h
      obtain rfl : kv.2 = v := by injection h
      rw [List.filter_cons]
      have : p kv = false := by
        obtain ⟨k1, v1⟩ := kv
        simp only at hk
        subst hk; exact hp
      rw [if_neg (by simp [this])]
      exact getField_filter_none fs k hrest
    · rw [hrest] at h
      obtain rfl : w = v := by injection h
      have hnotin : ¬(kv.1 = k) := by
        intro hh
        apply hnd.1
        subst hh
        exact getField_mem_keys fs kv.1 _ hrest
      rw [List.filter_cons]
      split
      · simp only [getField, ih hnd.2 hrest, if_neg hnotin]
      · exact ih hnd.2 hrest

/-! ## Claim C10 — easing-handle simplification -/

/-- C10: in the keyframe-simplification pass, an easing handle with
array-valued `x` and `y` is dropped exactly when the *first* components of
the two arrays are within 0.01 of 0.5 — regardless of the remaining
components (the tails `xr`, `yr` are arbitrary); a handle missing `x` or
`y` is never dropped; a dropped handle disappears from the keyframe while a
kept handle passes through unchanged; and on a recognized keyframe array the
pass applies exactly this per-keyframe rewrite. -/
theorem C10_easing_handle_simplification :
    (∀ (hfs : List (String × JVal)) (x0 : ℤ) (ex : ℕ) (xr : List JVal)
        (y0 : ℤ) (ey : ℕ) (yr : List JVal),
      getField hfs "x" = some (.arr (.num x0 ex :: xr)) →
      getField hfs "y" = some (.arr (.num y0 ey :: yr)) →
      (dropHandle (.obj hfs) = true ↔
        |numVal x0 ex - 1 / 2| < 1 / 100 ∧ |numVal y0 ey - 1 / 2| < 1 / 100)) ∧
    (∀ hfs : List (String × JVal),
      getField hfs "x" = none ∨ getField hfs "y" = none →
      dropHandle (.obj hfs) = false) ∧
    (∀ (g : List (String × JVal)) (hk : String) (hv : JVal),
      (hk = "i" ∨ hk = "o") → (g.map Prod.fst).Nodup →
      getField g hk = some hv → dropHandle hv = true →
      topField (simplifyKf (.obj g)) hk = none) ∧
    (∀ (g : List (String × JVal)) (hk : String) (hv : JVal),
      (hk = "i" ∨ hk = "o") →
      getField g hk = some hv → dropHandle hv = false →
      topField (simplifyKf (.obj g)) hk = some hv) ∧
    (∀ (fs : List (String × JVal)) (kfs : List JVal),
      isKeyframeList kfs = true →
      simplifyKeyframes (.obj (("k", .arr kfs) :: fs)) =
        .obj (("k", .arr (kfs.map simplifyKf)) :: simplifyKeyframesObj fs)) := by
  refine ⟨?_, ?_, ?_, ?_, ?_⟩
  · intro hfs x0 ex xr y0 ey yr hx hy
    show (nearHalf (handleCoord (getField hfs "x"))
      && nearHalf (handleCoord (getField hfs "y"))) = true ↔ _
    rw [hx, hy]
    show (nearHalf (some (.num x0 ex)) && nearHalf (some (.num y0 ey))) = true ↔ _
    rw [Bool.and_eq_true, nearHalf_num_iff, nearHalf_num_iff]
  · intro hfs h
    show (nearHalf (handleCoord (getField hfs "x"))
      && nearHalf (handleCoord (getField hfs "y"))) = false
    rcases h with h | h <;> rw [h] <;> simp [handleCoord, nearHalf]
  · intro g hk hv hio hnd hg hdrop
    show getField (g.filter fun kv => !((kv.1 == "i" || kv.1 == "o") && dropHandle kv.2)) hk = none
    apply getField_filter_drop g hk hv hnd hg
    rcases hio with rfl | rfl <;> simp [hdrop]
  · intro g hk hv hio hg hdrop
    show getField (g.filter fun kv => !((kv.1 == "i" || kv.1 == "o") && dropHandle kv.2)) hk =
      some hv
    apply getField_filter_keep g hk hv hg
    rcases hio with rfl | rfl <;> simp [hdrop]
  · intro fs kfs hkl
    show JVal.obj (simplifyKeyframesObj (("k", .arr kfs) :: fs)) = _
    simp [simplifyKeyframesObj, hkl]

theorem C10_easing_handle_simplification_witness :
    topField (simplifyKf (.obj [("t", .num 0 0),
        ("i", .obj [("x", .arr [.num 5 1, .num 9 0]), ("y", .arr [.num 501 3])]),
        ("s", .num 1 0)])) "i" = none ∧
    dropHandle (.obj [("y", .arr [.num 5 1])]) = false :=
  ⟨C10_easing_handle_simplification.2.2.1 _ "i" _ (Or.inl rfl) (by decide) rfl (by decide),
   C10_easing_handle_simplification.2.1 _ (Or.inl rfl)⟩

/-! ## Per-pass preservation of top-level fields -/

theorem getField_filter_keyTrue {p : String × JVal → Bool}
    (fs : List (String × JVal)) (k : String) (hp : ∀ v, p (k, v) = true) :
    getField (fs.filter p) k = getField fs k := by
  induction fs with
  | nil => rfl
  | cons kv fs ih =>
    rw [List.filter_cons]
    split
    · simp only [getField, ih]
    · next hkv =>
      simp only [getField, ih]
      cases getField fs k with
      | some w => rfl
      | none =>
        by_cases hh : kv.1 = k
        · exfalso
          apply hkv
          obtain ⟨k1, v1⟩ := kv
          simp only at hh
          subst hh
          exact hp v1
        · rw [if_neg hh]

theorem getField_mapField_ne (fs : List (String × JVal)) (key k : String)
    (f : JVal → JVal) (h : k ≠ key) :
    getField (mapField fs key f) k = getField fs k := by
  induction fs with
  | nil => rfl
  | cons kv fs ih =>
    simp only [mapField, List.map_cons] at ih ⊢
    by_cases hkv : kv.1 = key
    · simp only [if_pos hkv, getField, ih]
      cases getField fs k with
      | some w => rfl
      | none =>
        rw [if_neg (by rw [hkv]; exact fun hh => h hh.symm), if_neg (by
          rw [hkv]; exact fun hh => h hh.symm)]
    · simp only [if_neg hkv, getField, ih]

theorem getField_mapField_self (fs : List (String × JVal)) (key : String)
    (f : JVal → JVal) :
    getField (mapField fs key f) key = (getField fs key).map f := by
  induction fs with
  | nil => rfl
  | cons kv fs ih =>
    simp only [mapField, List.map_cons] at ih ⊢
    by_cases hkv : kv.1 = key
    · simp only [if_pos hkv, getField, ih]
      cases getField fs key with
      | some w => rfl
      | none => simp [hkv]
    · simp only [if_neg hkv, getField, ih]
      cases getField fs key with
      | some w => rfl
      | none => simp [hkv]

theorem topField_removeMetadata (fs : List (String × JVal)) (k : String)
    (h : metadataKeys.contains k = false) :
    topField (removeMetadata (.obj fs)) k = getField fs k := by
  show getField (fs.filter _) k = getField fs k
  refine getField_filter_keyTrue fs k (fun v => ?_)
  simp only [Bool.not_eq_true']
  exact h

theorem topField_removeHiddenLayers (fs : List (String × JVal)) (k : String)
    (h1 : k ≠ "layers") (h2 : k ≠ "assets") :
    topField (removeHiddenLayers (.obj fs)) k = getField fs k := by
  show topField (match getField (mapField fs "layers" filterLayers) "assets" with
    | some av =>
      if truthy av
      then JVal.obj (mapField (mapField fs "layers" filterLayers) "assets" (mapArr hideAssetLayers))
      else JVal.obj (mapField fs "layers" filterLayers)
    | none => JVal.obj (mapField fs "layers" filterLayers)) k = getField fs k
  cases getField (mapField fs "layers" filterLayers) "assets" with
  | some av =>
    show topField (if truthy av = true
      then JVal.obj (mapField (mapField fs "layers" filterLayers) "assets" (mapArr hideAssetLayers))
      else JVal.obj (mapField fs "layers" filterLayers)) k = getField fs k
    by_cases hav : truthy av = true
    · rw [if_pos hav]
      show getField (mapField (mapField fs "layers" filterLayers) "assets" (mapArr hideAssetLayers)) k = _
      rw [getField_mapField_ne _ _ _ _ h2, getField_mapField_ne _ _ _ _ h1]
    · rw [if_neg hav]
      show getField (mapField fs "layers" filterLayers) k = _
      exact getField_mapField_ne _ _ _ _ h1
  | none =>
    show getField (mapField fs "layers" filterLayers) k = _
    exact getField_mapField_ne _ _ _ _ h1

theorem topField_removeUnusedAssets (fs : List (String × JVal)) (k : String)
    (h : k ≠ "assets") :
    topField (removeUnusedAssets (.obj fs)) k = getField fs k := by
  show topField (match getField fs "assets", getField fs "layers" with
    | some av, some lv =>
      if (truthy av && truthy lv) = true then
        match av with
        | .arr assets =>
          JVal.obj (mapField fs "assets"
            (fun _ => .arr (assets.filter (assetKept (usedAssetIds assets lv)))))
        | _ => JVal.obj fs
      else JVal.obj fs
    | _, _ => JVal.obj fs) k = getField fs k
  cases ha : getField fs "assets" with
  | none => cases hl : getField fs "layers" <;> rfl
  | some av =>
    cases hl : getField fs "layers" with
    | none => rfl
    | some lv =>
      dsimp only
      by_cases htr : (truthy av && truthy lv) = true
      · rw [if_pos htr]
        cases av with
        | arr assets =>
          show getField (mapField fs "assets" _) k = _
          exact getField_mapField_ne _ _ _ _ h
        | null => rfl
        | bool b => rfl
        | num n e => rfl
        | str s => rfl
        | obj g => rfl
      · rw [if_neg htr]
        rfl

theorem topField_compressBase64Images (fs : List (String × JVal)) (k : String)
    (h : k ≠ "assets") :
    topField (compressBase64Images (.obj fs)) k = getField fs k := by
  dsimp only [compressBase64Images]
  cases ha : getField fs "assets" with
  | none => rfl
  | some av =>
    dsimp only
    by_cases htr : truthy av = true
    · rw [if_pos htr]
      show getField (mapField fs "assets" (mapArr compressAsset)) k = _
      exact getField_mapField_ne _ _ _ _ h
    · rw [if_neg htr]
      rfl

theorem getField_removeEmptyGroupsObj (fs : List (String × JVal)) (k : String) :
    getField (removeEmptyGroupsObj fs) k = (getField fs k).map removeEmptyGroups := by
  induction fs with
  | nil => rfl
  | cons kv fs ih =>
    obtain ⟨k1, v1⟩ := kv
    simp only [removeEmptyGroupsObj, getField, ih]
    cases getField fs k with
    | some w => simp
    | none => by_cases h : k1 = k <;> simp [h]

theorem getField_roundDecimalsObj (fs : List (String × JVal)) (k : String) (p : Nat) :
    getField (roundDecimalsObj fs p) k = (getField fs k).map (roundDecimals · p) := by
  induction fs with
  | nil => rfl
  | cons kv fs ih =>
    obtain ⟨k1, v1⟩ := kv
    simp only [roundDecimalsObj, getField, ih]
    cases getField fs k with
    | some w => simp
    | none => by_cases h : k1 = k <;> simp [h]

theorem getField_removeExpressionsObj (fs : List (String × JVal)) (k : String)
    (hk : k ≠ "x") :
    getField (removeExpressionsObj fs) k = (getField fs k).map removeExpressions := by
  induction fs with
  | nil => rfl
  | cons kv fs ih =>
    obtain ⟨k1, v1⟩ := kv
    simp only [removeExpressionsObj]
    by_cases hd : (k1 == "x" && v1.isStr) = true
    · rw [if_pos hd]
      simp only [getField, ih]
      cases getField fs k with
      | some w => simp
      | none =>
        rw [if_neg (by
          simp only [Bool.and_eq_true, beq_iff_eq] at hd
          exact fun hh => hk (hh ▸ hd.1 ▸ rfl))]
    · rw [if_neg hd]
      simp only [getField, ih]
      cases getField fs k with
      | some w => simp
      | none => by_cases h : k1 = k <;> simp [h]

theorem getField_removeEffectsObj (fs : List (String × JVal)) (k : String)
    (hk : k ≠ "ef") :
    getField (removeEffectsObj fs) k = (getField fs k).map removeEffects := by
  induction fs with
  | nil => rfl
  | cons kv fs ih =>
    obtain ⟨k1, v1⟩ := kv
    simp only [removeEffectsObj]
    by_cases hd : (k1 == "ef" && v1.isArr) = true
    · rw [if_pos hd]
      simp only [getField, ih]
      cases getField fs k with
      | some w => simp
      | none =>
        rw [if_neg (by
          simp only [Bool.and_eq_true, beq_iff_eq] at hd
          exact fun hh => hk (hh ▸ hd.1 ▸ rfl))]
    · rw [if_neg hd]
      simp only [getField, ih]
      cases getField fs k with
      | some w => simp
      | none => by_cases h : k1 = k <;> simp [h]

theorem getField_simplifyKeyframesObj (fs : List (String × JVal)) (k : String)
    (hk : k ≠ "k") :
    getField (simplifyKeyframesObj fs) k = (getField fs k).map simplifyKeyframes := by
  induction fs with
  | nil => rfl
  | cons kv fs ih =>
    obtain ⟨k1, v1⟩ := kv
    simp only [simplifyKeyframesObj, getField, ih]
    cases hg : getField fs k with
    | some w => simp
    | none =>
      by_cases h1 : k1 = "k"
      · subst h1
        have hne : ¬("k" = k) := fun hh => hk hh.symm
        cases v1 with
        | arr kfs => by_cases hkl : isKeyframeList kfs = true <;> simp [hkl, hne]
        | null => simp [hne]
        | bool b => simp [hne]
        | num n e => simp [hne]
        | str s => simp [hne]
        | obj g => simp [hne]
      · by_cases h : k1 = k
        · subst h
          simp [h1]
        · simp [h, h1]

theorem getField_collapseTransformsObj (fs : List (String × JVal)) (k : String)
    (hk : k ≠ "ks") :
    getField (collapseTransformsObj fs) k = (getField fs k).map collapseTransforms := by
  induction fs with
  | nil => rfl
  | cons kv fs ih =>
    obtain ⟨k1, v1⟩ := kv
    cases v1 with
    | obj tfs =>
      simp only [collapseTransformsObj, getField, ih]
      by_cases h1 : k1 = "ks"
      · have hne : ¬(k1 = k) := fun hh => hk (hh ▸ h1 ▸ rfl)
        rw [if_pos h1]
        cases getField fs k with
        | some w => simp
        | none => simp [hne]
      · rw [if_neg h1]
        cases getField fs k with
        | some w => simp
        | none =>
          by_cases h : k1 = k <;> simp [h]
          rfl
    | null =>
      simp only [collapseTransformsObj, getField, ih]
      cases getField fs k with
      | some w => simp
      | none => by_cases h : k1 = k <;> simp [h]
    | bool b =>
      simp only [collapseTransformsObj, getField, ih]
      cases getField fs k with
      | some w => simp
      | none => by_cases h : k1 = k <;> simp [h]
    | num n e =>
      simp only [collapseTransformsObj, getField, ih]
      cases getField fs k with
      | some w => simp
      | none => by_cases h : k1 = k <;> simp [h]
    | str s =>
      simp only [collapseTransformsObj, getField, ih]
      cases getField fs k with
      | some w => simp
      | none => by_cases h : k1 = k <;> simp [h]
    | arr xs =>
      simp only [collapseTransformsObj, getField, ih]
      cases getField fs k with
      | some w => simp
      | none => by_cases h : k1 = k <;> simp [h]

theorem getField_rupObj_none (fs : List (String × JVal)) (k : String)
    (h : getField fs k = none) :
    getField (removeUnnecessaryPropertiesObj fs) k = none := by
  induction fs with
  | nil => rfl
  | cons kv fs ih =>
    obtain ⟨k1, v1⟩ := kv
    simp only [getField] at h
    rcases hrest : getField fs k with _ | w
    · rw [hrest] at h
      have hne : ¬(k1 = k) := by
        intro hh; rw [if_pos hh] at h; cases h
      simp only [removeUnnecessaryPropertiesObj]
      split
      · exact ih hrest
      · simp only [getField, ih hrest, if_neg hne]
    · rw [hrest] at h; cases h

theorem getField_rupObj (fs : List (String × JVal)) (k : String) (v : JVal)
    (h : getField fs k = some v) (hkeep : dropDefaultEntry k v = false) :
    getField (removeUnnecessaryPropertiesObj fs) k =
      some (removeUnnecessaryProperties v) := by
  induction fs with
  | nil => cases h
  | cons kv fs ih =>
    obtain ⟨k1, v1⟩ := kv
    simp only [getField] at h
    rcases hrest : getField fs k with _ | w
    · rw [hrest] at h
      have hk1 : k1 = k := by
        by_cases hh : k1 = k
        · exact hh
        · rw [if_neg hh] at h; cases h
      rw [if_pos hk1] at h
      obtain rfl : v1 = v := by injection h
      subst hk1
      simp only [removeUnnecessaryPropertiesObj, hkeep, Bool.false_eq_true, if_false]
      simp [getField, getField_rupObj_none fs k1 hrest]
    · rw [hrest] at h
      obtain rfl : w = v := by injection h
      simp only [removeUnnecessaryPropertiesObj]
      split
      · exact ih hrest
      · simp only [getField, ih hrest]

theorem topFieldV_removeMetadata (X : JVal) (k : String)
    (h : metadataKeys.contains k = false) :
    topField (removeMetadata X) k = topField X k := by
  cases X with
  | obj g => exact topField_removeMetadata g k h
  | null => rfl
  | bool b => rfl
  | num n e => rfl
  | str s => rfl
  | arr xs => rfl

theorem topFieldV_removeHiddenLayers (X : JVal) (k : String)
    (h1 : k ≠ "layers") (h2 : k ≠ "assets") :
    topField (removeHiddenLayers X) k = topField X k := by
  cases X with
  | obj g => exact topField_removeHiddenLayers g k h1 h2
  | null => rfl
  | bool b => rfl
  | num n e => rfl
  | str s => rfl
  | arr xs => rfl

theorem topFieldV_removeUnusedAssets (X : JVal) (k : String) (h : k ≠ "assets") :
    topField (removeUnusedAssets X) k = topField X k := by
  cases X with
  | obj g => exact topField_removeUnusedAssets g k h
  | null => rfl
  | bool b => rfl
  | num n e => rfl
  | str s => rfl
  | arr xs => rfl

theorem topFieldV_compressBase64Images (X : JVal) (k : String) (h : k ≠ "assets") :
    topField (compressBase64Images X) k = topField X k := by
  cases X with
  | obj g => exact topField_compressBase64Images g k h
  | null => rfl
  | bool b => rfl
  | num n e => rfl
  | str s => rfl
  | arr xs => rfl

theorem topFieldV_removeEmptyGroups (X : JVal) (k : String) :
    topField (removeEmptyGroups X) k = (topField X k).map removeEmptyGroups := by
  cases X with
  | obj g => exact getField_removeEmptyGroupsObj g k
  | null => rfl
  | bool b => rfl
  | num n e => rfl
  | str s => rfl
  | arr xs => rfl

theorem topFieldV_simplifyKeyframes (X : JVal) (k : String) (hk : k ≠ "k") :
    topField (simplifyKeyframes X) k = (topField X k).map simplifyKeyframes := by
  cases X with
  | obj g => exact getField_simplifyKeyframesObj g k hk
  | null => rfl
  | bool b => rfl
  | num n e => rfl
  | str s => rfl
  | arr xs => rfl

theorem topFieldV_removeExpressions (X : JVal) (k : String) (hk : k ≠ "x") :
    topField (removeExpressions X) k = (topField X k).map removeExpressions := by
  cases X with
  | obj g => exact getField_removeExpressionsObj g k hk
  | null => rfl
  | bool b => rfl
  | num n e => rfl
  | str s => rfl
  | arr xs => rfl

theorem topFieldV_removeEffects (X : JVal) (k : String) (hk : k ≠ "ef") :
    topField (removeEffects X) k = (topField X k).map removeEffects := by
  cases X with
  | obj g => exact getField_removeEffectsObj g k hk
  | null => rfl
  | bool b => rfl
  | num n e => rfl
  | str s => rfl
  | arr xs => rfl

theorem topFieldV_collapseTransforms (X : JVal) (k : String) (hk : k ≠ "ks") :
    topField (collapseTransforms X) k = (topField X k).map collapseTransforms := by
  cases X with
  | obj g => exact getField_collapseTransformsObj g k hk
  | null => rfl
  | bool b => rfl
  | num n e => rfl
  | str s => rfl
  | arr xs => rfl

theorem topFieldV_roundDecimals (X : JVal) (k : String) (p : Nat) :
    topField (roundDecimals X p) k = (topField X k).map (roundDecimals · p) := by
  cases X with
  | obj g => exact getField_roundDecimalsObj g k p
  | null => rfl
  | bool b => rfl
  | num n e => rfl
  | str s => rfl
  | arr xs => rfl

theorem topFieldV_removeUnnecessaryProperties (X : JVal) (k : String) (v : JVal)
    (hX : topField X k = some v) (hkeep : dropDefaultEntry k v = false) :
    topField (removeUnnecessaryProperties X) k =
      some (removeUnnecessaryProperties v) := by
  cases X with
  | obj g => exact getField_rupObj g k v hX hkeep
  | null => cases hX
  | bool b => cases hX
  | num n e => cases hX
  | str s => cases hX
  | arr xs => cases hX

theorem condPass_true (f : JVal → JVal) (X : JVal) : condPass true f X = f X := rfl

theorem condPass_false (f : JVal → JVal) (X : JVal) : condPass false f X = X := rfl

theorem topField_condPass_keep (k : String) (b : Bool) (f : JVal → JVal) (X : JVal)
    (w : JVal) (hf : ∀ Y, topField (f Y) k = topField Y k)
    (hX : topField X k = some w) :
    topField (condPass b f X) k = some w := by
  cases b <;> simp [condPass, hf, hX]

theorem topField_condPass_fix (k : String) (b : Bool) (f : JVal → JVal)
    (α : JVal → JVal) (X : JVal) (w : JVal)
    (hf : ∀ Y, topField (f Y) k = (topField Y k).map α)
    (hα : α w = w) (hX : topField X k = some w) :
    topField (condPass b f X) k = some w := by
  cases b <;> simp [condPass, hf, hX, hα]

/-- The value of a scalar (string or numeric) top-level field after the whole
pipeline: unchanged except for the rounding pass when it is enabled. -/
theorem pipeline_scalar_field (fs : List (String × JVal)) (o : OptimizationOptions)
    (k : String) (v : JVal)
    (hcdk : o.collapseDuplicateKeyframes = false)
    (hk1 : k ≠ "layers") (hk2 : k ≠ "assets") (hk3 : k ≠ "x") (hk4 : k ≠ "ef")
    (hk5 : k ≠ "k") (hk6 : k ≠ "ks") (hmeta : metadataKeys.contains k = false)
    (hdrop : dropDefaultEntry k v = false)
    (hscalar : (∃ s, v = .str s) ∨ (∃ n e, v = .num n e))
    (hget : getField fs k = some v) :
    topField (optimizePasses o (.obj fs)) k =
      some (if o.roundDecimals then roundDecimals v o.decimalPrecision else v) := by
  have fixEG : removeEmptyGroups v = v := by
    rcases hscalar with ⟨s, rfl⟩ | ⟨n, e, rfl⟩ <;> rfl
  have fixSK : simplifyKeyframes v = v := by
    rcases hscalar with ⟨s, rfl⟩ | ⟨n, e, rfl⟩ <;> rfl
  have fixRUP : removeUnnecessaryProperties v = v := by
    rcases hscalar with ⟨s, rfl⟩ | ⟨n, e, rfl⟩ <;> rfl
  -- the value after the rounding stage
  set w : JVal := if o.roundDecimals then roundDecimals v o.decimalPrecision else v with hw
  have hscalarW : (∃ s, w = .str s) ∨ (∃ n e, w = .num n e) := by
    rw [hw]
    cases o.roundDecimals with
    | false => simpa using hscalar
    | true =>
      rcases hscalar with ⟨s, rfl⟩ | ⟨n, e, rfl⟩
      · exact Or.inl ⟨s, rfl⟩
      · exact Or.inr ⟨roundNum n e o.decimalPrecision, o.decimalPrecision, rfl⟩
  have fixRE : removeExpressions w = w := by
    rcases hscalarW with ⟨s, hs2⟩ | ⟨n2, e2, hs2⟩ <;> rw [hs2] <;> rfl
  have fixEF : removeEffects w = w := by
    rcases hscalarW with ⟨s, hs2⟩ | ⟨n2, e2, hs2⟩ <;> rw [hs2] <;> rfl
  have fixCT : collapseTransforms w = w := by
    rcases hscalarW with ⟨s, hs2⟩ | ⟨n2, e2, hs2⟩ <;> rw [hs2] <;> rfl
  have h0 : topField (deepClone (.obj fs)) k = some v := hget
  have h1 := topField_condPass_keep k o.removeMetadata removeMetadata _ v
    (fun Y => topFieldV_removeMetadata Y k hmeta) h0
  have h2 := topField_condPass_keep k o.removeHiddenLayers removeHiddenLayers _ v
    (fun Y => topFieldV_removeHiddenLayers Y k hk1 hk2) h1
  have h3 : topField (removeUnusedAssets (condPass o.removeHiddenLayers removeHiddenLayers
      (condPass o.removeMetadata removeMetadata (deepClone (.obj fs))))) k = some v := by
    rw [topFieldV_removeUnusedAssets _ k hk2]; exact h2
  have h4 := topField_condPass_fix k o.removeEmptyGroups removeEmptyGroups
    removeEmptyGroups _ v (fun Y => topFieldV_removeEmptyGroups Y k) fixEG h3
  have h5 := topField_condPass_fix k o.simplifyKeyframes simplifyKeyframes
    simplifyKeyframes _ v (fun Y => topFieldV_simplifyKeyframes Y k hk5) fixSK h4
  have h6 : topField (condPass o.removeDefaultValues removeUnnecessaryProperties
      (condPass o.simplifyKeyframes simplifyKeyframes
      (condPass o.removeEmptyGroups removeEmptyGroups
      (removeUnusedAssets (condPass o.removeHiddenLayers removeHiddenLayers
      (condPass o.removeMetadata removeMetadata (deepClone (.obj fs)))))))) k = some v := by
    cases hb : o.removeDefaultValues
    · rw [condPass_false]; exact h5
    · rw [condPass_true]
      rw [topFieldV_removeUnnecessaryProperties _ k v h5 hdrop, fixRUP]
  have h7 : topField (condPass o.roundDecimals
      (fun y => roundDecimals y o.decimalPrecision)
      (condPass o.removeDefaultValues removeUnnecessaryProperties
      (condPass o.simplifyKeyframes simplifyKeyframes
      (condPass o.removeEmptyGroups removeEmptyGroups
      (removeUnusedAssets (condPass o.removeHiddenLayers removeHiddenLayers
      (condPass o.removeMetadata removeMetadata (deepClone (.obj fs))))))))) k = some w := by
    cases hb : o.roundDecimals
    · rw [hw, hb, if_neg (by simp), condPass_false]
      exact h6
    · rw [hw, hb, if_pos rfl, condPass_true]
      rw [topFieldV_roundDecimals _ k o.decimalPrecision, h6]
      rfl
  have h8 := topField_condPass_keep k o.compressImages compressBase64Images _ w
    (fun Y => topFieldV_compressBase64Images Y k hk2) h7
  have h9 := topField_condPass_fix k o.removeExpressions removeExpressions
    removeExpressions _ w (fun Y => topFieldV_removeExpressions Y k hk3) fixRE h8
  have h10 := topField_condPass_fix k o.removeEffects removeEffects
    removeEffects _ w (fun Y => topFieldV_removeEffects Y k hk4) fixEF h9
  have h11 := topField_condPass_fix k o.collapseTransforms collapseTransforms
    collapseTransforms _ w (fun Y => topFieldV_collapseTransforms Y k hk6) fixCT h10
  show topField (condPass o.collapseDuplicateKeyframes collapseDuplicateKeyframes _) k = _
  rw [hcdk, condPass_false]
  exact h11

theorem topField_some_obj (X : JVal) (k : String) (v : JVal)
    (h : topField X k = some v) : ∃ g, X = .obj g ∧ getField g k = some v := by
  cases X with
  | obj g => exact ⟨g, rfl, h⟩
  | null => cases h
  | bool b => cases h
  | num n e => cases h
  | str s => cases h
  | arr xs => cases h

/-- C1 amended: for a validated document and any options with the
collapse-duplicate-keyframes pass off (that pass can replace a document that
is itself shaped like a constant animated property, see `C8_counterexample`),
all six required fields survive every pass: `v` with exactly its value, and
the five numeric fields with their values rounded by the rounding pass when
it is enabled (`roundNum n e p` is `Math.round(x*10^p)/10^p`) and exactly
preserved otherwise. -/
theorem C1_required_fields_rounded (fs : List (String × JVal)) (o : OptimizationOptions)
    (hval : validateLottie (.obj fs) = true)
    (hcdk : o.collapseDuplicateKeyframes = false) :
    (∀ s, getField fs "v" = some (.str s) →
      topField (optimizeLottie (.obj fs) o).optimizedAnimation "v" = some (.str s)) ∧
    (∀ k, k ∈ (["fr", "ip", "op", "w", "h"] : List String) → ∀ n e,
      getField fs k = some (.num n e) →
      topField (optimizeLottie (.obj fs) o).optimizedAnimation k =
        some (if o.roundDecimals
          then .num (roundNum n e o.decimalPrecision) o.decimalPrecision
          else .num n e)) := by
  constructor
  · intro s hs
    have h := pipeline_scalar_field fs o "v" (.str s) hcdk (by decide) (by decide)
      (by decide) (by decide) (by decide) (by decide) (by decide)
      (by simp [dropDefaultEntry, isStr]) (Or.inl ⟨s, rfl⟩) hs
    show topField (optimizePasses o (.obj fs)) "v" = some (.str s)
    rw [h]
    cases o.roundDecimals <;> rfl
  · intro k hk n e hget
    simp only [List.mem_cons, List.not_mem_nil, or_false] at hk
    have step : ∀ hk1 : k ≠ "layers", k ≠ "assets" → k ≠ "x" → k ≠ "ef" → k ≠ "k" →
        k ≠ "ks" → metadataKeys.contains k = false →
        dropDefaultEntry k (.num n e) = false →
        topField (optimizeLottie (.obj fs) o).optimizedAnimation k =
          some (if o.roundDecimals
            then .num (roundNum n e o.decimalPrecision) o.decimalPrecision
            else .num n e) := by
      intro hk1 hk2 hk3 hk4 hk5 hk6 hmeta hdrop
      have h := pipeline_scalar_field fs o k (.num n e) hcdk hk1 hk2 hk3 hk4 hk5 hk6
        hmeta hdrop (Or.inr ⟨n, e, rfl⟩) hget
      show topField (optimizePasses o (.obj fs)) k = _
      rw [h]
      cases o.roundDecimals <;> rfl
    rcases hk with rfl | rfl | rfl | rfl | rfl
    · exact step (by decide) (by decide) (by decide) (by decide) (by decide) (by decide)
        (by decide) (by simp [dropDefaultEntry, isNum, isNumEq, isFalseLit])
    · exact step (by decide) (by decide) (by decide) (by decide) (by decide) (by decide)
        (by decide) (by simp [dropDefaultEntry, isNum, isNumEq, isFalseLit])
    · exact step (by decide) (by decide) (by decide) (by decide) (by decide) (by decide)
        (by decide) (by simp [dropDefaultEntry, isNum, isNumEq, isFalseLit])
    · exact step (by decide) (by decide) (by decide) (by decide) (by decide) (by decide)
        (by decide) (by simp [dropDefaultEntry, isNum, isNumEq, isFalseLit])
    · exact step (by decide) (by decide) (by decide) (by decide) (by decide) (by decide)
        (by decide) (by simp [dropDefaultEntry, isNum, isNumEq, isFalseLit])

theorem C1_required_fields_rounded_witness :
    topField (optimizeLottie (.obj [("v", .str "5.5.0"), ("fr", .num 5 3),
        ("ip", .num 0 0), ("op", .num 30 0), ("w", .num 100 0), ("h", .num 100 0)])
      defaultOptions).optimizedAnimation "fr" = some (.num 1 2) ∧
    topField (optimizeLottie (.obj [("v", .str "5.5.0"), ("fr", .num 5 3),
        ("ip", .num 0 0), ("op", .num 30 0), ("w", .num 100 0), ("h", .num 100 0)])
      defaultOptions).optimizedAnimation "v" = some (.str "5.5.0") :=
  ⟨(C1_required_fields_rounded [("v", .str "5.5.0"), ("fr", .num 5 3),
      ("ip", .num 0 0), ("op", .num 30 0), ("w", .num 100 0), ("h", .num 100 0)]
      defaultOptions rfl rfl).2 "fr" (by decide) 5 3 rfl,
   (C1_required_fields_rounded [("v", .str "5.5.0"), ("fr", .num 5 3),
      ("ip", .num 0 0), ("op", .num 30 0), ("w", .num 100 0), ("h", .num 100 0)]
      defaultOptions rfl rfl).1 "5.5.0" rfl⟩

/-- C8 amended: re-validation after `optimize` succeeds for every validated
document and every options record whose collapse-duplicate-keyframes flag is
off; with that aggressive pass on, a document that is itself shaped like a
constant animated property is replaced wholesale and fails re-validation
(see the corresponding counterexample). -/
theorem C8_revalidation (d : JVal) (o : OptimizationOptions)
    (hval : validateLottie d = true)
    (hcdk : o.collapseDuplicateKeyframes = false) :
    validateLottie (optimizeLottie d o).optimizedAnimation = true := by
  obtain ⟨fs, rfl, ⟨s, hvv⟩, ⟨n1, e1, hfr⟩, ⟨n2, e2, hip⟩, ⟨n3, e3, hop⟩,
    ⟨n4, e4, hwv⟩, ⟨n5, e5, hhv⟩⟩ := (validateLottie_eq_true_iff d).mp hval
  have hv := pipeline_scalar_field fs o "v" (.str s) hcdk (by decide) (by decide)
    (by decide) (by decide) (by decide) (by decide) (by decide)
    (by simp [dropDefaultEntry, isStr]) (Or.inl ⟨s, rfl⟩) hvv
  have hv2 : topField (optimizePasses o (.obj fs)) "v" = some (.str s) := by
    rw [hv]; cases o.roundDecimals <;> rfl
  have hnum : ∀ (k : String) (n : ℤ) (e : ℕ), k ≠ "layers" → k ≠ "assets" → k ≠ "x" →
      k ≠ "ef" → k ≠ "k" → k ≠ "ks" → metadataKeys.contains k = false →
      dropDefaultEntry k (.num n e) = false → getField fs k = some (.num n e) →
      ∃ m f, topField (optimizePasses o (.obj fs)) k = some (.num m f) := by
    intro k n e h1 h2 h3 h4 h5 h6 h7 h8 hg
    have h := pipeline_scalar_field fs o k (.num n e) hcdk h1 h2 h3 h4 h5 h6 h7 h8
      (Or.inr ⟨n, e, rfl⟩) hg
    rw [h]
    cases o.roundDecimals
    · exact ⟨n, e, rfl⟩
    · exact ⟨roundNum n e o.decimalPrecision, o.decimalPrecision, rfl⟩
  obtain ⟨m1, f1, hfr2⟩ := hnum "fr" n1 e1 (by decide) (by decide) (by decide)
    (by decide) (by decide) (by decide) (by decide)
    (by simp [dropDefaultEntry, isNum, isNumEq, isFalseLit]) hfr
  obtain ⟨m2, f2, hip2⟩ := hnum "ip" n2 e2 (by decide) (by decide) (by decide)
    (by decide) (by decide) (by decide) (by decide)
    (by simp [dropDefaultEntry, isNum, isNumEq, isFalseLit]) hip
  obtain ⟨m3, f3, hop2⟩ := hnum "op" n3 e3 (by decide) (by decide) (by decide)
    (by decide) (by decide) (by decide) (by decide)
    (by simp [dropDefaultEntry, isNum, isNumEq, isFalseLit]) hop
  obtain ⟨m4, f4, hw2⟩ := hnum "w" n4 e4 (by decide) (by decide) (by decide)
    (by decide) (by decide) (by decide) (by decide)
    (by simp [dropDefaultEntry, isNum, isNumEq, isFalseLit]) hwv
  obtain ⟨m5, f5, hh2⟩ := hnum "h" n5 e5 (by decide) (by decide) (by decide)
    (by decide) (by decide) (by decide) (by decide)
    (by simp [dropDefaultEntry, isNum, isNumEq, isFalseLit]) hhv
  obtain ⟨g, hg, hgv⟩ := topField_some_obj _ "v" _ hv2
  show validateLottie (optimizePasses o (.obj fs)) = true
  rw [hg] at hfr2 hip2 hop2 hw2 hh2 ⊢
  exact (validateLottie_eq_true_iff _).mpr
    ⟨g, rfl, ⟨s, hgv⟩, ⟨m1, f1, hfr2⟩, ⟨m2, f2, hip2⟩, ⟨m3, f3, hop2⟩,
     ⟨m4, f4, hw2⟩, ⟨m5, f5, hh2⟩⟩

theorem C8_revalidation_witness :
    validateLottie (optimizeLottie (.obj [("v", .str "5.5.0"), ("fr", .num 5 3),
        ("ip", .num 0 0), ("op", .num 30 0), ("w", .num 100 0), ("h", .num 100 0)])
      defaultOptions).optimizedAnimation = true :=
  C8_revalidation (.obj [("v", .str "5.5.0"), ("fr", .num 5 3), ("ip", .num 0 0),
    ("op", .num 30 0), ("w", .num 100 0), ("h", .num 100 0)]) defaultOptions rfl rfl

/-! ## Claim C2 — asset liveness of the unused-asset pass -/

/-- The reachability relation of the claim: an identifier is live when some
surviving top-level layer references it (`base`), or when it is referenced
from the nested layer list of an asset that is itself live (`step`,
`assetSucc` being exactly the identifiers the worklist collects from the
referenced asset's own layers). -/
inductive LiveId (assets : List JVal) (lv : JVal) : String → Prop where
  | base {id : String} : id ∈ refIdsOf lv → LiveId assets lv id
  | step {id id2 : String} : LiveId assets lv id → id2 ∈ assetSucc assets id →
      LiveId assets lv id2

theorem mem_addId (ids : List String) (y x : String) :
    x ∈ addId ids y ↔ x ∈ ids ∨ x = y := by
  unfold addId
  by_cases h : y ∈ ids
  · rw [if_pos h]
    constructor
    · exact Or.inl
    · rintro (hx | rfl)
      · exact hx
      · exact h
  · rw [if_neg h]
    simp

theorem mem_addIds (l : List String) (ids : List String) (x : String) :
    x ∈ addIds ids l ↔ x ∈ ids ∨ x ∈ l := by
  induction l generalizing ids with
  | nil => simp [addIds]
  | cons y l ih =>
    show x ∈ addIds (addId ids y) l ↔ _
    rw [ih, mem_addId]
    simp [or_assoc]

theorem addIds_append_ex (l : List String) (ids : List String) :
    ∃ t, addIds ids l = ids ++ t := by
  induction l generalizing ids with
  | nil => exact ⟨[], (List.append_nil ids).symm⟩
  | cons y l ih =>
    show ∃ t, addIds (addId ids y) l = ids ++ t
    by_cases h : y ∈ ids
    · have ha : addId ids y = ids := by unfold addId; rw [if_pos h]
      obtain ⟨t1, ht1⟩ := ih ids
      exact ⟨t1, by rw [ha]; exact ht1⟩
    · have ha : addId ids y = ids ++ [y] := by unfold addId; rw [if_neg h]
      obtain ⟨t1, ht1⟩ := ih (ids ++ [y])
      exact ⟨[y] ++ t1, by rw [ha, ht1, List.append_assoc]⟩

theorem addId_nodup (ids : List String) (y : String) (h : ids.Nodup) :
    (addId ids y).Nodup := by
  unfold addId
  by_cases hy : y ∈ ids
  · rwa [if_pos hy]
  · rw [if_neg hy]
    simpa [List.nodup_append] using ⟨h, hy⟩

theorem addIds_nodup (l : List String) (ids : List String) (h : ids.Nodup) :
    (addIds ids l).Nodup := by
  induction l generalizing ids with
  | nil => exact h
  | cons y l ih => exact ih (addId ids y) (addId_nodup ids y h)

theorem assetSucc_subset_candidates (assets : List JVal) (lv : JVal) (z : String) :
    assetSucc assets z ⊆ assetRefCandidates assets lv := by
  intro x hx
  unfold assetSucc at hx
  rcases hfind : findAsset assets z with _ | a
  · rw [hfind] at hx; cases hx
  · rw [hfind] at hx
    have hmem : a ∈ assets := List.mem_of_find?_eq_some hfind
    cases a with
    | obj afs =>
      unfold assetRefCandidates
      refine List.mem_append_right _ (List.mem_flatMap.mpr ⟨.obj afs, hmem, ?_⟩)
      exact hx
    | null => cases hx
    | bool b => cases hx
    | num n e => cases hx
    | str s => cases hx
    | arr xs => cases hx

theorem nodup_subset_length_le (l1 l2 : List String) (hnd : l1.Nodup)
    (hsub : l1 ⊆ l2) : l1.length ≤ l2.length := by
  calc l1.length = l1.toFinset.card := (List.toFinset_card_of_nodup hnd).symm
    _ ≤ l2.toFinset.card := Finset.card_le_card (fun x hx => by
        rw [List.mem_toFinset] at hx ⊢; exact hsub hx)
    _ ≤ l2.length := l2.toFinset_card_le

theorem assetLoop_sound (assets : List JVal) (lv : JVal) :
    ∀ (fuel i : ℕ) (ids : List String),
    (∀ x ∈ ids, LiveId assets lv x) →
    ∀ x ∈ assetLoop assets fuel i ids, LiveId assets lv x := by
  intro fuel
  induction fuel with
  | zero => intro i ids h x hx; exact h x hx
  | succ fuel ih =>
    intro i ids h x hx
    rw [assetLoop] at hx
    split at hx
    · next hlt =>
      refine ih (i + 1) _ ?_ x hx
      intro y hy
      rw [mem_addIds] at hy
      rcases hy with hy | hy
      · exact h y hy
      · exact LiveId.step (h _ (List.get_mem ids i hlt)) hy
    · exact h x hx

theorem assetLoop_append_ex (assets : List JVal) :
    ∀ (fuel i : ℕ) (ids : List String), ∃ t, assetLoop assets fuel i ids = ids ++ t := by
  intro fuel
  induction fuel with
  | zero => intro i ids; exact ⟨[], (List.append_nil ids).symm⟩
  | succ fuel ih =>
    intro i ids
    rw [assetLoop]
    split
    · next hlt =>
      obtain ⟨t1, ht1⟩ := addIds_append_ex (assetSucc assets (ids.get ⟨i, hlt⟩)) ids
      obtain ⟨t2, ht2⟩ := ih (i + 1) (addIds ids (assetSucc assets (ids.get ⟨i, hlt⟩)))
      exact ⟨t1 ++ t2, by rw [ht2, ht1, List.append_assoc]⟩
    · exact ⟨[], (List.append_nil ids).symm⟩

theorem take_append_le {α : Type} (l1 l2 : List α) (n : ℕ) (h : n ≤ l1.length) :
    (l1 ++ l2).take n = l1.take n := by
  induction l1 generalizing n with
  | nil =>
    have : n = 0 := by simpa using h
    subst this
    simp
  | cons a l ih =>
    cases n with
    | zero => rfl
    | succ m =>
      simp only [List.cons_append, List.take_succ_cons]
      rw [ih m (by simpa using h)]

theorem assetLoop_closed (assets : List JVal) (lv : JVal) :
    ∀ (fuel i : ℕ) (ids : List String),
    ids.Nodup →
    (∀ x ∈ ids, x ∈ assetRefCandidates assets lv) →
    (∀ x ∈ ids.take i, assetSucc assets x ⊆ ids) →
    i ≤ ids.length →
    (assetRefCandidates assets lv).length + 1 ≤ fuel + i →
    ∀ x ∈ assetLoop assets fuel i ids,
      assetSucc assets x ⊆ assetLoop assets fuel i ids := by
  intro fuel
  induction fuel with
  | zero =>
    intro i ids hnd hsub _ hile hfuel
    exfalso
    have : ids.length ≤ (assetRefCandidates assets lv).length :=
      nodup_subset_length_le _ _ hnd hsub
    omega
  | succ fuel ih =>
    intro i ids hnd hsub hproc hile hfuel
    rw [assetLoop]
    split
    · next hlt =>
      obtain ⟨tnew, htnew⟩ := addIds_append_ex (assetSucc assets (ids.get ⟨i, hlt⟩)) ids
      refine ih (i + 1) (addIds ids (assetSucc assets (ids.get ⟨i, hlt⟩)))
        (addIds_nodup _ _ hnd) ?_ ?_ ?_ ?_
      · intro x hx
        rw [mem_addIds] at hx
        rcases hx with hx | hx
        · exact hsub x hx
        · exact assetSucc_subset_candidates assets lv _ hx
      · intro x hx
        rw [htnew, take_append_le _ _ _ (by omega), List.take_succ,
          List.mem_append] at hx
        intro y hy
        rw [mem_addIds]
        rcases hx with hx | hx
        · exact Or.inl (hproc x hx hy)
        · rw [List.getElem?_eq_getElem hlt] at hx
          simp only [Option.toList_some, List.mem_singleton] at hx
          subst hx
          exact Or.inr hy
      · rw [htnew, List.length_append]; omega
      · omega
    · next hge =>
      have hieq : i = ids.length := by omega
      intro x hx y hy
      exact hproc x (by rw [hieq, List.take_length]; exact hx) hy

/-- Every identifier the worklist ever holds is live: the seeds come from the
top-level layers and each growth step follows `assetSucc`. -/
theorem usedAssetIds_sound (assets : List JVal) (lv : JVal) :
    ∀ x ∈ usedAssetIds assets lv, LiveId assets lv x := by
  intro x hx
  unfold usedAssetIds at hx
  refine assetLoop_sound assets lv _ 0 _ ?_ x hx
  intro y hy
  rw [mem_addIds] at hy
  rcases hy with hy | hy
  · cases hy
  · exact LiveId.base hy

/-- With the fuel `removeUnusedAssets` passes, the worklist result is closed
under `assetSucc`. -/
theorem usedAssetIds_closed (assets : List JVal) (lv : JVal) :
    ∀ x ∈ usedAssetIds assets lv, assetSucc assets x ⊆ usedAssetIds assets lv := by
  unfold usedAssetIds
  refine assetLoop_closed assets lv _ 0 _ (addIds_nodup _ _ List.nodup_nil) ?_ ?_ ?_ ?_
  · intro x hx
    rw [mem_addIds] at hx
    rcases hx with hx | hx
    · cases hx
    · unfold assetRefCandidates
      exact List.mem_append_left _ hx
  · intro x hx
    simp at hx
  · exact Nat.zero_le _
  · omega

/-- Conversely every live identifier ends up in the worklist result. -/
theorem usedAssetIds_complete (assets : List JVal) (lv : JVal) :
    ∀ x, LiveId assets lv x → x ∈ usedAssetIds assets lv := by
  intro x hx
  induction hx with
  | base h =>
    unfold usedAssetIds
    obtain ⟨t, ht⟩ := assetLoop_append_ex assets _ 0 (addIds [] (refIdsOf lv))
    rw [ht]
    exact List.mem_append_left _ ((mem_addIds _ _ _).mpr (Or.inr h))
  | step hlive hsucc ih =>
    exact usedAssetIds_closed assets lv _ ih hsucc

theorem assetKept_iff (used : List String) (a : JVal) :
    assetKept used a = true ↔ ∃ id, assetId a = some id ∧ id ∈ used := by
  unfold assetKept
  cases h : assetId a with
  | none =>
    simp
  | some id =>
    have hc : used.contains id = true ↔ id ∈ used := by
      rw [List.contains_eq_any_beq]
      simp only [List.any_eq_true, beq_iff_eq]
      constructor
      · rintro ⟨x, hx, rfl⟩
        exact hx
      · intro h
        exact ⟨id, h, rfl⟩
    rw [hc]
    constructor
    · intro hm
      exact ⟨id, rfl, hm⟩
    · rintro ⟨id2, hid2, hm⟩
      cases hid2
      exact hm

/-- An options record with every pass flag disabled. -/
def allPassesOff : OptimizationOptions where
  removeHiddenLayers := false
  roundDecimals := false
  decimalPrecision := 2
  removeMetadata := false
  removeEmptyGroups := false
  simplifyKeyframes := false
  removeDefaultValues := false
  compressImages := false
  removeExpressions := false
  removeEffects := false
  collapseTransforms := false
  collapseDuplicateKeyframes := false

/-- Claim C2 (amended): for a document whose `assets` field holds an array and
whose `layers` field is truthy, the unused-asset pass keeps exactly those
assets whose string `id` is reachable (`LiveId`) from the top-level layers,
transitively through referenced assets' own nested layer lists; and the pass
runs on every `optimizeLottie` call — even with every option flag disabled the
output is exactly `removeUnusedAssets` of the input.  (Over the whole
pipeline the claim fails: a later enabled pass can drop a reachable asset,
see the counterexample.) -/
theorem C2_asset_liveness (fs : List (String × JVal)) (assets : List JVal) (lv : JVal)
    (ha : getField fs "assets" = some (.arr assets))
    (hl : getField fs "layers" = some lv)
    (htr : truthy lv = true) :
    (∃ kept, topField (removeUnusedAssets (.obj fs)) "assets" = some (.arr kept) ∧
      ∀ a, a ∈ kept ↔ a ∈ assets ∧ ∃ id, assetId a = some id ∧ LiveId assets lv id) ∧
    ∀ d, (optimizeLottie d allPassesOff).optimizedAnimation = removeUnusedAssets d := by
  constructor
  · refine ⟨assets.filter (assetKept (usedAssetIds assets lv)), ?_, ?_⟩
    · show topField (match getField fs "assets", getField fs "layers" with
        | some av, some lv =>
          if truthy av && truthy lv then
            match av with
            | .arr assets =>
              JVal.obj (mapField fs "assets"
                (fun _ => .arr (assets.filter (assetKept (usedAssetIds assets lv)))))
            | _ => .obj fs
          else .obj fs
        | _, _ => JVal.obj fs) "assets" = _
      rw [ha, hl]
      dsimp only
      rw [show truthy (JVal.arr assets) = true from rfl, htr]
      show getField (mapField fs "assets"
        (fun _ => .arr (assets.filter (assetKept (usedAssetIds assets lv))))) "assets" = _
      rw [getField_mapField_self, ha]
      rfl
    · intro a
      rw [List.mem_filter]
      constructor
      · rintro ⟨hmem, hkept⟩
        obtain ⟨id, hid, hin⟩ := (assetKept_iff _ _).mp hkept
        exact ⟨hmem, id, hid, usedAssetIds_sound assets lv id hin⟩
      · rintro ⟨hmem, id, hid, hlive⟩
        exact ⟨hmem, (assetKept_iff _ _).mpr
          ⟨id, hid, usedAssetIds_complete assets lv id hlive⟩⟩
  · intro d
    rfl

theorem C2_asset_liveness_witness :
    (∃ kept, topField (removeUnusedAssets (.obj
        [("layers", .arr [.obj [("refId", .str "A")]]),
         ("assets", .arr [.obj [("id", .str "A")]])])) "assets" = some (.arr kept) ∧
      ∀ a, a ∈ kept ↔ a ∈ [JVal.obj [("id", .str "A")]] ∧
        ∃ id, assetId a = some id ∧
          LiveId [JVal.obj [("id", .str "A")]] (.arr [.obj [("refId", .str "A")]]) id) ∧
    ∀ d, (optimizeLottie d allPassesOff).optimizedAnimation = removeUnusedAssets d :=
  C2_asset_liveness [("layers", .arr [.obj [("refId", .str "A")]]),
    ("assets", .arr [.obj [("id", .str "A")]])]
    [JVal.obj [("id", .str "A")]] (.arr [.obj [("refId", .str "A")]]) rfl rfl rfl
